import Mathlib

/-!
Verification development for the accessibility-aware routing core of the
Navigator repository (`src/services/AccessibilityroutingService.ts`,
`src/types/index.ts`, `src/utils/navigation.ts`).

Modelling conventions:
* JavaScript IEEE-754 numbers are modelled as real numbers (`ℝ`); the value
  `Infinity` produced and consumed by the cost model and the A* score maps is
  modelled by `⊤` in `WithTop ℝ`.
* A `NavigationLocation` is modelled by its `latitude`/`longitude` fields,
  the only fields the routing service ever reads or writes.
* The JS `Map` keyed by the string `"${lat},${lon}"` is modelled as a function
  keyed by the coordinate pair itself (the string key is injective in the
  coordinates).  `Map.get(k) ?? Infinity` becomes a total function into
  `WithTop ℝ` defaulting to `⊤`.
* The JS `Set` of freshly allocated neighbour objects is modelled as a
  `List Location`: `add` always appends (a fresh object is never reference-equal
  to a member), `delete` removes the selected element, and iteration order is
  list order, exactly as JS `Set` insertion order.
* The unbounded `while` loop of the A* search and the `while` loop of path
  reconstruction are given explicit fuel; running out of fuel is reported as a
  distinguished `SearchResult.outOfFuel` outcome.
-/

namespace Navigator

/-- Feature categories from `src/types/index.ts` (`AccessibilityFeature.type`). -/
inductive FeatureType
  | ramp
  | elevator
  | wide_pathway
  | rest_area
  | well_lit
  | tactile_paving
deriving DecidableEq

/-- Obstacle categories from `src/types/index.ts` (`AccessibilityObstacle.type`). -/
inductive ObstacleType
  | stairs
  | construction
  | narrow_path
  | poor_lighting
  | uneven_surface
deriving DecidableEq

/-- Geographic point: the `latitude`/`longitude` fields of `NavigationLocation`
(the only fields the routing service reads), in degrees, as real numbers. -/
structure Location where
  latitude : ℝ
  longitude : ℝ

noncomputable instance : DecidableEq Location :=
  fun a b => decidable_of_iff (a.latitude = b.latitude ∧ a.longitude = b.longitude)
    (by cases a; cases b; simp)

instance : Inhabited Location := ⟨⟨0, 0⟩⟩

/-- Mirror of the `AccessibilityFeature` interface. -/
structure AccessibilityFeature where
  type : FeatureType
  location : Location
  description : String
  isActive : Bool

/-- Mirror of the `AccessibilityObstacle` interface (`temporaryUntil` timestamp
modelled as an optional number; the routing service never reads it). -/
structure AccessibilityObstacle where
  type : ObstacleType
  location : Location
  description : String
  temporaryUntil : Option ℝ := none

/-- Mirror of the `AccessibilityPreferences` interface. -/
structure AccessibilityPreferences where
  requiresWheelchairAccess : Bool
  preferWellLit : Bool
  needsRestStops : Bool
  maximumSlope : Option ℝ := none
  minimumPathWidth : Option ℝ := none

/-- The `Math.atan2(y, x)` function of JavaScript, on real arguments. -/
noncomputable def atan2 (y x : ℝ) : ℝ :=
  if 0 < x then Real.arctan (y / x)
  else if x < 0 then
    (if 0 ≤ y then Real.arctan (y / x) + Real.pi else Real.arctan (y / x) - Real.pi)
  else if 0 < y then Real.pi / 2
  else if y < 0 then -(Real.pi / 2)
  else 0

/-- Haversine great-circle distance, the private `calculateBaseDistance` method
(lines 170-184 of `AccessibilityroutingService.ts`).  `stop` stands for the
source's parameter `end`, a reserved word in Lean. -/
noncomputable def calculateBaseDistance (start stop : Location) : ℝ :=
  let R : ℝ := 6371e3
  let φ1 := start.latitude * Real.pi / 180
  let φ2 := stop.latitude * Real.pi / 180
  let Δφ := (stop.latitude - start.latitude) * Real.pi / 180
  let Δlng := (stop.longitude - start.longitude) * Real.pi / 180
  let a := Real.sin (Δφ / 2) * Real.sin (Δφ / 2) +
      Real.cos φ1 * Real.cos φ2 * Real.sin (Δlng / 2) * Real.sin (Δlng / 2)
  let c := 2 * atan2 (Real.sqrt a) (Real.sqrt (1 - a))
  R * c

/-- The standalone `calculateDistance` of `src/utils/navigation.ts`, a textual
duplicate of `calculateBaseDistance`. -/
noncomputable def calculateDistance (start stop : Location) : ℝ :=
  let R : ℝ := 6371e3
  let φ1 := start.latitude * Real.pi / 180
  let φ2 := stop.latitude * Real.pi / 180
  let Δφ := (stop.latitude - start.latitude) * Real.pi / 180
  let Δlng := (stop.longitude - start.longitude) * Real.pi / 180
  let a := Real.sin (Δφ / 2) * Real.sin (Δφ / 2) +
      Real.cos φ1 * Real.cos φ2 * Real.sin (Δlng / 2) * Real.sin (Δlng / 2)
  let c := 2 * atan2 (Real.sqrt a) (Real.sqrt (1 - a))
  R * c

/-- The ellipse-membership "near a segment" test, private `isPointNearLine`
(lines 257-268). -/
noncomputable def isPointNearLine (point lineStart lineEnd : Location)
    (threshold : ℝ) : Bool :=
  let d1 := calculateBaseDistance point lineStart
  let d2 := calculateBaseDistance point lineEnd
  let lineLength := calculateBaseDistance lineStart lineEnd
  decide ((d1 + d2) < (lineLength + threshold))

/-- Private `findFeaturesOnPath` (lines 245-249): every stored feature near the
segment; note the source does NOT filter by `isActive` here. -/
noncomputable def findFeaturesOnPath (features : List AccessibilityFeature)
    (start stop : Location) : List AccessibilityFeature :=
  features.filter (fun feature => isPointNearLine feature.location start stop 20)

/-- Private `findObstaclesOnPath` (lines 251-255). -/
noncomputable def findObstaclesOnPath (obstacles : List AccessibilityObstacle)
    (start stop : Location) : List AccessibilityObstacle :=
  obstacles.filter (fun obstacle => isPointNearLine obstacle.location start stop 20)

/-- The obstacle `for` loop inside `calculatePathWeight` (lines 142-151):
`none` models the early `return Infinity`. -/
noncomputable def obstacleLoop (preferences : AccessibilityPreferences) :
    List AccessibilityObstacle → ℝ → Option ℝ
  | [], weight => some weight
  | obstacle :: rest, weight =>
    if preferences.requiresWheelchairAccess &&
        (obstacle.type == ObstacleType.stairs || obstacle.type == ObstacleType.narrow_path) then
      none
    else if preferences.preferWellLit && (obstacle.type == ObstacleType.poor_lighting) then
      obstacleLoop preferences rest (weight * 1.5)
    else
      obstacleLoop preferences rest weight

/-- The feature `for` loop inside `calculatePathWeight` (lines 155-164). -/
noncomputable def featureLoop (preferences : AccessibilityPreferences) :
    List AccessibilityFeature → ℝ → ℝ
  | [], weight => weight
  | feature :: rest, weight =>
    let w1 :=
      if preferences.requiresWheelchairAccess &&
          (feature.type == FeatureType.ramp || feature.type == FeatureType.elevator) then
        weight * 0.8
      else weight
    let w2 :=
      if preferences.needsRestStops && (feature.type == FeatureType.rest_area) then
        w1 * 0.9
      else w1
    featureLoop preferences rest w2

/-- Private `calculatePathWeight` (lines 133-167).  The result lives in
`WithTop ℝ`: `⊤` models the `return Infinity` hard exclusion. -/
noncomputable def calculatePathWeight (features : List AccessibilityFeature)
    (obstacles : List AccessibilityObstacle) (start stop : Location)
    (preferences : AccessibilityPreferences) : WithTop ℝ :=
  match obstacleLoop preferences (findObstaclesOnPath obstacles start stop)
      (calculateBaseDistance start stop) with
  | none => ⊤
  | some w => ↑(featureLoop preferences (findFeaturesOnPath features start stop) w)

/-- The early-`return false` loop of `isLocationAccessible` (lines 278-283). -/
def accessLoop (preferences : AccessibilityPreferences) :
    List AccessibilityObstacle → Bool
  | [] => true
  | obstacle :: rest =>
    if preferences.requiresWheelchairAccess &&
        (obstacle.type == ObstacleType.stairs || obstacle.type == ObstacleType.narrow_path) then
      false
    else accessLoop preferences rest

/-- Private `isLocationAccessible` (lines 270-286): reads only the obstacle
collection, never the features. -/
noncomputable def isLocationAccessible (obstacles : List AccessibilityObstacle)
    (location : Location) (preferences : AccessibilityPreferences) : Bool :=
  let nearbyObstacles := obstacles.filter
    (fun obstacle => decide (calculateBaseDistance location obstacle.location < 20))
  accessLoop preferences nearbyObstacles

/-- The knowledge-base state of the service class: its two private collections. -/
structure AccessibilityRoutingService where
  features : List AccessibilityFeature
  obstacles : List AccessibilityObstacle

/-- Public `addFeature` (lines 30-32). -/
def addFeature (s : AccessibilityRoutingService) (feature : AccessibilityFeature) :
    AccessibilityRoutingService :=
  { s with features := s.features ++ [feature] }

/-- Public `addObstacle` (lines 35-37). -/
def addObstacle (s : AccessibilityRoutingService) (obstacle : AccessibilityObstacle) :
    AccessibilityRoutingService :=
  { s with obstacles := s.obstacles ++ [obstacle] }

/-- Public `removeObstacle` (lines 40-44): keeps the obstacles strictly more
than 1 meter away from `location`. -/
noncomputable def removeObstacle (s : AccessibilityRoutingService) (location : Location) :
    AccessibilityRoutingService :=
  { s with obstacles :=
      s.obstacles.filter (fun obs => decide (calculateBaseDistance obs.location location > 1)) }

/-- Private `estimateDistance` (lines 241-243), the A* heuristic. -/
noncomputable def estimateDistance (a b : Location) : ℝ :=
  calculateBaseDistance a b

/-- Private `isAtDestination` (lines 208-210): the 5-meter arrival tolerance. -/
noncomputable def isAtDestination (current stop : Location) : Bool :=
  decide (calculateBaseDistance current stop < 5)

/-- The `(i, j)` offsets of the neighbour-generation double loop in
`getAccessibleNeighbors` (lines 219-232), in iteration order, `(0, 0)` skipped. -/
def gridOffsets : List (ℝ × ℝ) :=
  [(-1, -1), (-1, 0), (-1, 1), (0, -1), (0, 1), (1, -1), (1, 0), (1, 1)]

/-- Private `getAccessibleNeighbors` (lines 212-235). -/
noncomputable def getAccessibleNeighbors (obstacles : List AccessibilityObstacle)
    (current : Location) (preferences : AccessibilityPreferences) : List Location :=
  let gridSize : ℝ := 0.0001
  (gridOffsets.map (fun ij =>
      Location.mk (current.latitude + ij.1 * gridSize) (current.longitude + ij.2 * gridSize))).filter
    (fun neighbor => isLocationAccessible obstacles neighbor preferences)

/-- Private `getLowestFScore` (lines 186-206): first strictly-lowest score wins;
`none` models the `throw new Error('No nodes in open set')` branch. -/
noncomputable def getLowestFScore (openSet : List Location)
    (fScore : Location → WithTop ℝ) : Option Location :=
  (openSet.foldl
    (fun acc node => if fScore node < acc.1 then (fScore node, some node) else acc)
    ((⊤ : WithTop ℝ), (none : Option Location))).2

/-- Private `reconstructPath` (lines 288-302), with fuel for its `while` loop:
the JS loop prepends each `cameFrom` ancestor, which is the same list as the
recursive ancestor path followed by `current`. -/
noncomputable def reconstructPath : ℕ → (Location → Option Location) → Location → List Location
  | 0, _, current => [current]
  | fuel + 1, cameFrom, current =>
    match cameFrom current with
    | none => [current]
    | some prev => reconstructPath fuel cameFrom prev ++ [current]

/-- The mutable locals of `findAccessibleRoute` (lines 52-55). -/
structure SearchState where
  openSet : List Location
  cameFrom : Location → Option Location
  gScore : Location → WithTop ℝ
  fScore : Location → WithTop ℝ

/-- The body of the neighbour `for` loop of `findAccessibleRoute` (lines 69-82):
on strict improvement, record the back-pointer, update both score maps and
append the (freshly allocated, hence never already present) neighbour object to
the open set. -/
noncomputable def processNeighbor (features : List AccessibilityFeature)
    (obstacles : List AccessibilityObstacle) (preferences : AccessibilityPreferences)
    (stop current : Location) (st : SearchState) (neighbor : Location) : SearchState :=
  let tentativeGScore :=
    st.gScore current + calculatePathWeight features obstacles current neighbor preferences
  if tentativeGScore < st.gScore neighbor then
    { openSet := st.openSet ++ [neighbor]
      cameFrom := fun x => if x = neighbor then some current else st.cameFrom x
      gScore := fun x => if x = neighbor then tentativeGScore else st.gScore x
      fScore := fun x =>
        if x = neighbor then tentativeGScore + ↑(estimateDistance neighbor stop)
        else st.fScore x }
  else st

/-- One expansion of `current`: the whole neighbour loop, folded in order. -/
noncomputable def expandNode (features : List AccessibilityFeature)
    (obstacles : List AccessibilityObstacle) (preferences : AccessibilityPreferences)
    (stop current : Location) (st : SearchState) : SearchState :=
  (getAccessibleNeighbors obstacles current preferences).foldl
    (processNeighbor features obstacles preferences stop current) st

/-- Outcome of `findAccessibleRoute`: `noRoute` models the
`throw new Error('No accessible route found')` exit, `frontierError` the
internal `throw new Error('No nodes in open set')` of `getLowestFScore`, and
`outOfFuel` an unfinished (still looping) run. -/
inductive SearchResult
  | found (route : List Location)
  | noRoute
  | frontierError
  | outOfFuel
deriving Inhabited

/-- The `while` loop of `findAccessibleRoute` (lines 60-83).  `steps` counts
completed iterations; `8 * steps + 1` bounds every `cameFrom` chain (at most 8
back-pointer writes per iteration), so it is sufficient fuel for
`reconstructPath`, whose JS original just runs to the chain's end. -/
noncomputable def searchLoop (features : List AccessibilityFeature)
    (obstacles : List AccessibilityObstacle) (preferences : AccessibilityPreferences)
    (stop : Location) : ℕ → ℕ → SearchState → SearchResult
  | 0, _, _ => .outOfFuel
  | fuel + 1, steps, st =>
    if st.openSet.isEmpty then .noRoute
    else
      match getLowestFScore st.openSet st.fScore with
      | none => .frontierError
      | some current =>
        if isAtDestination current stop then
          .found (reconstructPath (8 * steps + 1) st.cameFrom current)
        else
          searchLoop features obstacles preferences stop fuel (steps + 1)
            (expandNode features obstacles preferences stop current
              { st with openSet := st.openSet.erase current })

/-- Public `findAccessibleRoute` (lines 47-86), with fuel for its `while` loop.
The method reads but never writes the service's feature/obstacle collections,
so the embedding takes them as plain arguments and returns only the outcome. -/
noncomputable def findAccessibleRoute (features : List AccessibilityFeature)
    (obstacles : List AccessibilityObstacle) (fuel : ℕ) (start stop : Location)
    (preferences : AccessibilityPreferences) : SearchResult :=
  searchLoop features obstacles preferences stop fuel 0
    { openSet := [start]
      cameFrom := fun _ => none
      gScore := fun x => if x = start then 0 else ⊤
      fScore := fun x => if x = start then ↑(estimateDistance start stop) else ⊤ }

/-- The coordinate comparison of the dedup check inside
`getAccessibleFeaturesOnRoute` (lines 114-117). -/
noncomputable def sameCoordinates (a b : Location) : Bool :=
  decide (a.latitude = b.latitude) && decide (a.longitude = b.longitude)

/-- The `forEach` push of `getAccessibleFeaturesOnRoute` (lines 113-120):
append unless a feature with the same exact coordinates is already collected. -/
noncomputable def dedupPush (relevantFeatures : List AccessibilityFeature)
    (feature : AccessibilityFeature) : List AccessibilityFeature :=
  if relevantFeatures.any (fun f => sameCoordinates f.location feature.location) then
    relevantFeatures
  else relevantFeatures ++ [feature]

/-- The segment loop of `getAccessibleFeaturesOnRoute` (lines 96-121), over the
route's consecutive point pairs. -/
noncomputable def gatherFeatures (features : List AccessibilityFeature)
    (acc : List AccessibilityFeature) :
    List (Location × Location) → List AccessibilityFeature
  | [] => acc
  | (startPoint, endPoint) :: rest =>
    let featuresOnSegment := features.filter
      (fun feature => feature.isActive && isPointNearLine feature.location startPoint endPoint 20)
    gatherFeatures features (featuresOnSegment.foldl dedupPush acc) rest

/-- Public `getAccessibleFeaturesOnRoute` (lines 89-130).  The final in-place
`Array.sort` with comparator `distanceA - distanceB` is modelled by a merge
sort under the corresponding `≤` test. -/
noncomputable def getAccessibleFeaturesOnRoute (features : List AccessibilityFeature)
    (route : List Location) : List AccessibilityFeature :=
  if route.length < 2 then []
  else
    (gatherFeatures features [] (route.zip route.tail)).mergeSort
      (fun a b => decide (calculateBaseDistance route.headI a.location ≤
        calculateBaseDistance route.headI b.location))

/-- Concrete point used by the closed witness/counterexample statements. -/
def origin : Location := ⟨0, 0⟩

/-- Concrete `stairs` obstacle at the origin, for witness statements. -/
def stairsAtOrigin : AccessibilityObstacle :=
  ⟨ObstacleType.stairs, origin, "", none⟩

/-- Concrete preferences requiring wheelchair access, for witness statements. -/
def wheelchairPrefs : AccessibilityPreferences :=
  ⟨true, false, false, none, none⟩

/-- Overwrite only the two reserved preference fields (`maximumSlope`,
`minimumPathWidth`); used to state that the routing core never reads them. -/
def setReservedFields (p : AccessibilityPreferences) (slope width : Option ℝ) :
    AccessibilityPreferences :=
  { p with maximumSlope := slope, minimumPathWidth := width }

/-- Point on the equator at longitude 180°, whose haversine distance from the
origin has the closed form `6371e3 * π`; used by concrete counterexamples. -/
def equator180 : Location := ⟨0, 180⟩

/-- An INACTIVE ramp at the origin, for the claim C4 counterexample. -/
def inactiveRamp : AccessibilityFeature := ⟨FeatureType.ramp, origin, "", false⟩

/-- Toggle a feature's `isActive` flag to a fixed value, keeping type and
location; used to state what the cost model actually ignores. -/
def setActive (b : Bool) (f : AccessibilityFeature) : AccessibilityFeature :=
  { f with isActive := b }

/-- Back-pointer chains of the search: `IsChain cf start l` says the list
`l = [x, ..., start]` follows `cf` from its head down to `start`, where the
chain ends (`cf start = none`). -/
inductive IsChain (cf : Location → Option Location) (start : Location) :
    List Location → Prop
  | base : cf start = none → IsChain cf start [start]
  | step {x y : Location} {l : List Location} :
      cf x = some y → IsChain cf start (y :: l) → IsChain cf start (x :: y :: l)

/-- Invariant of the A* `while` loop, tying the open set, the back-pointer map
and the score maps together. -/
structure Inv (start : Location) (st : SearchState) : Prop where
  g_start : st.gScore start = 0
  g_nonneg : ∀ x, 0 ≤ st.gScore x
  parent_le : ∀ x y, st.cameFrom x = some y → st.gScore y ≤ st.gScore x
  chains : ∀ x, x ∈ st.openSet ∨ st.cameFrom x ≠ none →
    ∃ l, IsChain st.cameFrom start (x :: l)
  f_fin : ∀ x ∈ st.openSet, st.fScore x ≠ ⊤

/-- The written part of the back-pointer map is contained in `s`. -/
def DomIn (st : SearchState) (s : Finset Location) : Prop :=
  ∀ x, st.cameFrom x ≠ none → x ∈ s

/-- The haversine intermediate value `a` of `calculateBaseDistance`, exposed
for interval reasoning. -/
noncomputable def havA (start stop : Location) : ℝ :=
  Real.sin ((stop.latitude - start.latitude) * Real.pi / 180 / 2) *
      Real.sin ((stop.latitude - start.latitude) * Real.pi / 180 / 2) +
    Real.cos (start.latitude * Real.pi / 180) * Real.cos (stop.latitude * Real.pi / 180) *
      Real.sin ((stop.longitude - start.longitude) * Real.pi / 180 / 2) *
      Real.sin ((stop.longitude - start.longitude) * Real.pi / 180 / 2)

/-- Preferences of the open-set duplicate scenario: well-lit preferred, no
wheelchair requirement. -/
def cexPrefs : AccessibilityPreferences := ⟨false, true, false, none, none⟩

/-- The poor-lighting obstacle of the duplicate scenario, 13 m north of the
midpoint of the start-to-east-neighbour edge. -/
def cexObstacle : AccessibilityObstacle :=
  ⟨ObstacleType.poor_lighting, ⟨0.000117, 0.00005⟩, "", none⟩

/-- Three copies of the obstacle: each multiplies a near edge's weight by 1.5,
tripling the direct east edge's weight to 3.375 times its length. -/
def cexObstacles : List AccessibilityObstacle := [cexObstacle, cexObstacle, cexObstacle]

/-- Destination of the duplicate scenario: two grid cells south of the start. -/
def cexStop : Location := ⟨-0.0002, 0⟩

/-- The south neighbour of the start: selected second by the search. -/
def cexC : Location := ⟨-0.0001, 0⟩

/-- The east neighbour of the start: its `gScore` improves via `cexC` while it
is still in the open set, so it is appended a second time. -/
def cexA : Location := ⟨0, 0.0001⟩

/-- South-west neighbour of the start (offset `(-1, -1)`). -/
def cexN1 : Location := ⟨-0.0001, -0.0001⟩

/-- South-east neighbour of the start (offset `(-1, 1)`). -/
def cexN3 : Location := ⟨-0.0001, 0.0001⟩

/-- West neighbour of the start (offset `(0, -1)`). -/
def cexN4 : Location := ⟨0, -0.0001⟩

/-- North-west neighbour of the start (offset `(1, -1)`). -/
def cexN6 : Location := ⟨0.0001, -0.0001⟩

/-- North neighbour of the start (offset `(1, 0)`). -/
def cexN7 : Location := ⟨0.0001, 0⟩

/-- North-east neighbour of the start (offset `(1, 1)`). -/
def cexN8 : Location := ⟨0.0001, 0.0001⟩

/-- South-west neighbour of `cexC` (offset `(-1, -1)` from `cexC`). -/
def cexM1 : Location := ⟨-0.0002, -0.0001⟩

/-- South-east neighbour of `cexC` (offset `(-1, 1)` from `cexC`). -/
def cexM3 : Location := ⟨-0.0002, 0.0001⟩

/-- The initial search state of the duplicate scenario. -/
noncomputable def cexState0 : SearchState :=
  { openSet := [origin]
    cameFrom := fun _ => none
    gScore := fun x => if x = origin then 0 else ⊤
    fScore := fun x => if x = origin then ↑(estimateDistance origin cexStop) else ⊤ }

/-- The state after the first loop iteration (expansion of the start). -/
noncomputable def cexState1 : SearchState :=
  expandNode [] cexObstacles cexPrefs cexStop origin
    { cexState0 with openSet := cexState0.openSet.erase origin }

/-- The state after the second loop iteration (expansion of the south
neighbour), in whose open set the east neighbour appears twice. -/
noncomputable def cexState2 : SearchState :=
  expandNode [] cexObstacles cexPrefs cexStop cexC
    { cexState1 with openSet := cexState1.openSet.erase cexC }

/-- The state entering the second expansion: `cexState1` with `cexC` removed
from the open set. -/
noncomputable def cexSt1e : SearchState :=
  { cexState1 with openSet := cexState1.openSet.erase cexC }

/-- The state midway through the second expansion, after `cexC`'s first seven
neighbours have been processed and just before `cexA` is. -/
noncomputable def cexSt7 : SearchState :=
  List.foldl (processNeighbor [] cexObstacles cexPrefs cexStop cexC) cexSt1e
    [cexM1, cexStop, cexM3, cexN1, cexN3, cexN4, origin]

/-! ## Basic geodesy lemmas -/

theorem arctan_nonneg {x : ℝ} (hx : 0 ≤ x) : 0 ≤ Real.arctan x := by
  have h := Real.arctan_strictMono.monotone hx
  simpa [Real.arctan_zero] using h

theorem atan2_nonneg {y x : ℝ} (hy : 0 ≤ y) (hx : 0 ≤ x) : 0 ≤ atan2 y x := by
  unfold atan2
  split_ifs with h1 h2 h3 h4
  · exact arctan_nonneg (div_nonneg hy h1.le)
  all_goals linarith [Real.pi_pos]

theorem atan2_zero_one : atan2 0 1 = 0 := by
  unfold atan2
  rw [if_pos one_pos]
  simp [Real.arctan_zero]

theorem atan2_one_zero : atan2 1 0 = Real.pi / 2 := by
  unfold atan2
  norm_num

/-- The two textual copies of the haversine formula are the same function. -/
theorem calculateDistance_eq_calculateBaseDistance :
    calculateDistance = calculateBaseDistance := rfl

theorem calculateBaseDistance_self (p : Location) : calculateBaseDistance p p = 0 := by
  simp [calculateBaseDistance, sub_self, atan2_zero_one]

theorem sin_sq_neg_arg (x : ℝ) : Real.sin (-x) * Real.sin (-x) = Real.sin x * Real.sin x := by
  rw [Real.sin_neg]; ring

theorem hav_core_symm (la1 lo1 la2 lo2 : ℝ) :
    Real.sin ((la2 - la1) * Real.pi / 180 / 2) * Real.sin ((la2 - la1) * Real.pi / 180 / 2) +
      Real.cos (la1 * Real.pi / 180) * Real.cos (la2 * Real.pi / 180) *
        Real.sin ((lo2 - lo1) * Real.pi / 180 / 2) * Real.sin ((lo2 - lo1) * Real.pi / 180 / 2) =
    Real.sin ((la1 - la2) * Real.pi / 180 / 2) * Real.sin ((la1 - la2) * Real.pi / 180 / 2) +
      Real.cos (la2 * Real.pi / 180) * Real.cos (la1 * Real.pi / 180) *
        Real.sin ((lo1 - lo2) * Real.pi / 180 / 2) * Real.sin ((lo1 - lo2) * Real.pi / 180 / 2) := by
  rw [show (la1 - la2) * Real.pi / 180 / 2 = -((la2 - la1) * Real.pi / 180 / 2) by ring,
    show (lo1 - lo2) * Real.pi / 180 / 2 = -((lo2 - lo1) * Real.pi / 180 / 2) by ring,
    Real.sin_neg, Real.sin_neg]
  ring

theorem calculateBaseDistance_symm (p q : Location) :
    calculateBaseDistance p q = calculateBaseDistance q p := by
  simp only [calculateBaseDistance]
  rw [hav_core_symm p.latitude p.longitude q.latitude q.longitude]

theorem calculateBaseDistance_nonneg (p q : Location) :
    0 ≤ calculateBaseDistance p q := by
  simp only [calculateBaseDistance]
  apply mul_nonneg (by norm_num)
  exact mul_nonneg (by norm_num) (atan2_nonneg (Real.sqrt_nonneg _) (Real.sqrt_nonneg _))

/-! ## Cost model lemmas and claim: hard exclusion -/

theorem obstacleLoop_eq_none (preferences : AccessibilityPreferences)
    (hw : preferences.requiresWheelchairAccess = true) :
    ∀ (l : List AccessibilityObstacle) (w : ℝ),
      (∃ o ∈ l, o.type = ObstacleType.stairs ∨ o.type = ObstacleType.narrow_path) →
      obstacleLoop preferences l w = none := by
  intro l
  induction l with
  | nil => intro w h; simp at h
  | cons o rest ih =>
    intro w h
    rcases h with ⟨o', ho', hty⟩
    rcases List.mem_cons.mp ho' with rfl | hmem
    · have hc : (preferences.requiresWheelchairAccess &&
          (o'.type == ObstacleType.stairs || o'.type == ObstacleType.narrow_path)) = true := by
        rcases hty with h | h <;> simp [hw, h]
      simp [obstacleLoop, hc]
    · by_cases hc : (preferences.requiresWheelchairAccess &&
          (o.type == ObstacleType.stairs || o.type == ObstacleType.narrow_path)) = true
      · simp [obstacleLoop, hc]
      · simp only [obstacleLoop, hc, if_false, Bool.false_eq_true]
        split
        · exact ih _ ⟨o', hmem, hty⟩
        · exact ih _ ⟨o', hmem, hty⟩

/-- Claim C1: with `requiresWheelchairAccess`, any `stairs` or `narrow_path`
obstacle passing the 20 m segment-near test makes `calculatePathWeight` return
`⊤` (the JS `Infinity`), whatever the features and other obstacles are. -/
theorem hard_exclusion_infinite (features : List AccessibilityFeature)
    (obstacles : List AccessibilityObstacle) (start stop : Location)
    (preferences : AccessibilityPreferences)
    (hw : preferences.requiresWheelchairAccess = true)
    (o : AccessibilityObstacle) (ho : o ∈ obstacles)
    (hty : o.type = ObstacleType.stairs ∨ o.type = ObstacleType.narrow_path)
    (hnear : isPointNearLine o.location start stop 20 = true) :
    calculatePathWeight features obstacles start stop preferences = ⊤ := by
  unfold calculatePathWeight
  have h1 : obstacleLoop preferences (findObstaclesOnPath obstacles start stop)
      (calculateBaseDistance start stop) = none :=
    obstacleLoop_eq_none preferences hw _ _
      ⟨o, by unfold findObstaclesOnPath; exact List.mem_filter.mpr ⟨ho, hnear⟩, hty⟩
  rw [h1]

theorem isPointNearLine_self (p : Location) {t : ℝ} (ht : 0 < t) :
    isPointNearLine p p p t = true := by
  simp [isPointNearLine, calculateBaseDistance_self]
  exact ht

/-- Witness for claim C1 at a concrete input: a stairs obstacle at the origin,
with the degenerate edge from the origin to itself. -/
theorem hard_exclusion_infinite_witness :
    wheelchairPrefs.requiresWheelchairAccess = true ∧
    stairsAtOrigin ∈ [stairsAtOrigin] ∧
    (stairsAtOrigin.type = ObstacleType.stairs ∨
      stairsAtOrigin.type = ObstacleType.narrow_path) ∧
    isPointNearLine stairsAtOrigin.location origin origin 20 = true ∧
    calculatePathWeight [] [stairsAtOrigin] origin origin wheelchairPrefs = ⊤ :=
  ⟨rfl, List.mem_singleton.mpr rfl, Or.inl rfl,
    isPointNearLine_self origin (by norm_num),
    hard_exclusion_infinite [] [stairsAtOrigin] origin origin wheelchairPrefs rfl
      stairsAtOrigin (List.mem_singleton.mpr rfl) (Or.inl rfl)
      (isPointNearLine_self origin (by norm_num))⟩

/-! ## Claim: point accessibility characterisation -/

theorem accessLoop_false_iff (preferences : AccessibilityPreferences) :
    ∀ l : List AccessibilityObstacle,
      accessLoop preferences l = false ↔
        (preferences.requiresWheelchairAccess = true ∧
          ∃ o ∈ l, o.type = ObstacleType.stairs ∨ o.type = ObstacleType.narrow_path) := by
  intro l
  induction l with
  | nil => simp [accessLoop]
  | cons o rest ih =>
    by_cases hc : (preferences.requiresWheelchairAccess &&
        (o.type == ObstacleType.stairs || o.type == ObstacleType.narrow_path)) = true
    · simp only [accessLoop, hc, if_true]
      constructor
      · intro _
        rcases Bool.and_eq_true_iff.mp hc with ⟨hw, hor⟩
        rcases Bool.or_eq_true_iff.mp hor with h | h
        · exact ⟨hw, o, List.mem_cons_self o rest, Or.inl (by simpa using h)⟩
        · exact ⟨hw, o, List.mem_cons_self o rest, Or.inr (by simpa using h)⟩
      · intro _; trivial
    · simp only [accessLoop, hc, if_false, Bool.false_eq_true]
      rw [ih]
      constructor
      · rintro ⟨hw, o', ho', hty⟩
        exact ⟨hw, o', List.mem_cons_of_mem o ho', hty⟩
      · rintro ⟨hw, o', ho', hty⟩
        rcases List.mem_cons.mp ho' with rfl | hmem
        · exfalso
          apply hc
          rcases hty with h | h <;> simp [hw, h]
        · exact ⟨hw, o', hmem, hty⟩

/-- Claim C5: `isLocationAccessible` returns `false` exactly when wheelchair
access is required and some `stairs` or `narrow_path` obstacle lies within
20 meters; the feature collection is not an input of the check at all, and
other obstacle types cannot change the result. -/
theorem isLocationAccessible_false_iff (obstacles : List AccessibilityObstacle)
    (location : Location) (preferences : AccessibilityPreferences) :
    isLocationAccessible obstacles location preferences = false ↔
      (preferences.requiresWheelchairAccess = true ∧
        ∃ o ∈ obstacles, calculateBaseDistance location o.location < 20 ∧
          (o.type = ObstacleType.stairs ∨ o.type = ObstacleType.narrow_path)) := by
  unfold isLocationAccessible
  rw [accessLoop_false_iff]
  constructor
  · rintro ⟨hw, o, ho, hty⟩
    rcases List.mem_filter.mp ho with ⟨hmem, hdist⟩
    exact ⟨hw, o, hmem, by simpa using hdist, hty⟩
  · rintro ⟨hw, o, ho, hdist, hty⟩
    exact ⟨hw, o, List.mem_filter.mpr ⟨ho, by simpa using hdist⟩, hty⟩

/-! ## Claim: removeObstacle purges exactly the obstacles within 1 meter -/

/-- Claim C8: `removeObstacle` keeps exactly the obstacles more than 1 meter
away (equivalently, removes exactly those at distance ≤ 1), as an order
preserving sublist, and leaves the features untouched. -/
theorem removeObstacle_exact (s : AccessibilityRoutingService) (location : Location) :
    (removeObstacle s location).features = s.features ∧
    (removeObstacle s location).obstacles =
      s.obstacles.filter
        (fun obs => !(decide (calculateBaseDistance obs.location location ≤ 1))) ∧
    (removeObstacle s location).obstacles.Sublist s.obstacles := by
  refine ⟨rfl, ?_, List.filter_sublist _⟩
  show s.obstacles.filter _ = s.obstacles.filter _
  apply List.filter_congr
  intro o _
  rcases le_or_lt (calculateBaseDistance o.location location) 1 with h | h
  · rw [decide_eq_false (not_lt.mpr h), decide_eq_true h]; rfl
  · rw [decide_eq_true h, decide_eq_false (not_le.mpr h)]; rfl

/-! ## Claim: distance algebra -/

/-- Claim C10: the haversine distance (both the service's private copy and the
navigation utility's copy) vanishes on coincident points and is symmetric. -/
theorem distance_refl_and_symm (a b : Location) :
    calculateBaseDistance a a = 0 ∧
    calculateBaseDistance a b = calculateBaseDistance b a ∧
    calculateDistance a a = 0 ∧
    calculateDistance a b = calculateDistance b a :=
  ⟨calculateBaseDistance_self a, calculateBaseDistance_symm a b,
    by rw [calculateDistance_eq_calculateBaseDistance]; exact calculateBaseDistance_self a,
    by rw [calculateDistance_eq_calculateBaseDistance]; exact calculateBaseDistance_symm a b⟩

/-! ## Claim: the reserved preference fields are never consulted -/

theorem obstacleLoop_congr (p q : AccessibilityPreferences)
    (h1 : p.requiresWheelchairAccess = q.requiresWheelchairAccess)
    (h2 : p.preferWellLit = q.preferWellLit) :
    ∀ (l : List AccessibilityObstacle) (w : ℝ),
      obstacleLoop p l w = obstacleLoop q l w := by
  intro l
  induction l with
  | nil => intro w; rfl
  | cons o rest ih =>
    intro w
    simp only [obstacleLoop, h1, h2]
    split
    · rfl
    · split
      · exact ih _
      · exact ih _

theorem featureLoop_congr (p q : AccessibilityPreferences)
    (h1 : p.requiresWheelchairAccess = q.requiresWheelchairAccess)
    (h3 : p.needsRestStops = q.needsRestStops) :
    ∀ (l : List AccessibilityFeature) (w : ℝ),
      featureLoop p l w = featureLoop q l w := by
  intro l
  induction l with
  | nil => intro w; rfl
  | cons f rest ih =>
    intro w
    simp only [featureLoop, h1, h3]
    exact ih _

theorem accessLoop_congr (p q : AccessibilityPreferences)
    (h1 : p.requiresWheelchairAccess = q.requiresWheelchairAccess) :
    ∀ l : List AccessibilityObstacle, accessLoop p l = accessLoop q l := by
  intro l
  induction l with
  | nil => rfl
  | cons o rest ih =>
    simp only [accessLoop, h1]
    split
    · rfl
    · exact ih

theorem calculatePathWeight_congr (features : List AccessibilityFeature)
    (obstacles : List AccessibilityObstacle) (start stop : Location)
    (p q : AccessibilityPreferences)
    (h1 : p.requiresWheelchairAccess = q.requiresWheelchairAccess)
    (h2 : p.preferWellLit = q.preferWellLit)
    (h3 : p.needsRestStops = q.needsRestStops) :
    calculatePathWeight features obstacles start stop p =
      calculatePathWeight features obstacles start stop q := by
  unfold calculatePathWeight
  rw [obstacleLoop_congr p q h1 h2]
  cases obstacleLoop q (findObstaclesOnPath obstacles start stop)
      (calculateBaseDistance start stop) with
  | none => rfl
  | some w => simp only [featureLoop_congr p q h1 h3]

theorem isLocationAccessible_congr (obstacles : List AccessibilityObstacle)
    (location : Location) (p q : AccessibilityPreferences)
    (h1 : p.requiresWheelchairAccess = q.requiresWheelchairAccess) :
    isLocationAccessible obstacles location p = isLocationAccessible obstacles location q := by
  unfold isLocationAccessible
  rw [accessLoop_congr p q h1]

theorem getAccessibleNeighbors_congr (obstacles : List AccessibilityObstacle)
    (current : Location) (p q : AccessibilityPreferences)
    (h1 : p.requiresWheelchairAccess = q.requiresWheelchairAccess) :
    getAccessibleNeighbors obstacles current p = getAccessibleNeighbors obstacles current q := by
  unfold getAccessibleNeighbors
  apply List.filter_congr
  intro x _
  rw [isLocationAccessible_congr obstacles x p q h1]

theorem processNeighbor_congr (features : List AccessibilityFeature)
    (obstacles : List AccessibilityObstacle) (stop current : Location)
    (p q : AccessibilityPreferences)
    (h1 : p.requiresWheelchairAccess = q.requiresWheelchairAccess)
    (h2 : p.preferWellLit = q.preferWellLit)
    (h3 : p.needsRestStops = q.needsRestStops)
    (st : SearchState) (neighbor : Location) :
    processNeighbor features obstacles p stop current st neighbor =
      processNeighbor features obstacles q stop current st neighbor := by
  unfold processNeighbor
  rw [calculatePathWeight_congr features obstacles current neighbor p q h1 h2 h3]

theorem expandNode_congr (features : List AccessibilityFeature)
    (obstacles : List AccessibilityObstacle) (stop current : Location)
    (p q : AccessibilityPreferences)
    (h1 : p.requiresWheelchairAccess = q.requiresWheelchairAccess)
    (h2 : p.preferWellLit = q.preferWellLit)
    (h3 : p.needsRestStops = q.needsRestStops)
    (st : SearchState) :
    expandNode features obstacles p stop current st =
      expandNode features obstacles q stop current st := by
  unfold expandNode
  rw [getAccessibleNeighbors_congr obstacles current p q h1]
  congr 1
  funext st' n
  exact processNeighbor_congr features obstacles stop current p q h1 h2 h3 st' n

theorem searchLoop_congr (features : List AccessibilityFeature)
    (obstacles : List AccessibilityObstacle) (stop : Location)
    (p q : AccessibilityPreferences)
    (h1 : p.requiresWheelchairAccess = q.requiresWheelchairAccess)
    (h2 : p.preferWellLit = q.preferWellLit)
    (h3 : p.needsRestStops = q.needsRestStops) :
    ∀ (fuel steps : ℕ) (st : SearchState),
      searchLoop features obstacles p stop fuel steps st =
        searchLoop features obstacles q stop fuel steps st := by
  intro fuel
  induction fuel with
  | zero => intro steps st; rfl
  | succ n ih =>
    intro steps st
    simp only [searchLoop]
    split
    · rfl
    · cases getLowestFScore st.openSet st.fScore with
      | none => rfl
      | some current =>
        simp only []
        split
        · rfl
        · rw [expandNode_congr features obstacles stop current p q h1 h2 h3, ih]

/-- Claim C9: `maximumSlope` and `minimumPathWidth` are inert: overwriting them
with anything leaves `calculatePathWeight`, `isLocationAccessible` and
`findAccessibleRoute` unchanged on all inputs. -/
theorem reserved_fields_inert (preferences : AccessibilityPreferences)
    (slope width : Option ℝ) (features : List AccessibilityFeature)
    (obstacles : List AccessibilityObstacle) (start stop location : Location)
    (fuel : ℕ) :
    calculatePathWeight features obstacles start stop
        (setReservedFields preferences slope width) =
      calculatePathWeight features obstacles start stop preferences ∧
    isLocationAccessible obstacles location (setReservedFields preferences slope width) =
      isLocationAccessible obstacles location preferences ∧
    findAccessibleRoute features obstacles fuel start stop
        (setReservedFields preferences slope width) =
      findAccessibleRoute features obstacles fuel start stop preferences := by
  refine ⟨calculatePathWeight_congr features obstacles start stop _ _ rfl rfl rfl,
    isLocationAccessible_congr obstacles location _ _ rfl, ?_⟩
  unfold findAccessibleRoute
  exact searchLoop_congr features obstacles stop (setReservedFields preferences slope width)
    preferences rfl rfl rfl fuel 0 _

/-! ## Claim: inactive features and the cost model -/

theorem isPointNearLine_left (a b : Location) {t : ℝ} (ht : 0 < t) :
    isPointNearLine a a b t = true := by
  simp [isPointNearLine, calculateBaseDistance_self]
  linarith

theorem dist_origin_equator180 :
    calculateBaseDistance origin equator180 = 6371e3 * Real.pi := by
  have h0 : ((0:ℝ) - 0) * Real.pi / 180 / 2 = 0 := by ring
  have h1 : ((180:ℝ) - 0) * Real.pi / 180 / 2 = Real.pi / 2 := by ring
  have h2 : (0:ℝ) * Real.pi / 180 = 0 := by ring
  simp only [calculateBaseDistance, origin, equator180, h0, h1, h2,
    Real.sin_zero, Real.cos_zero, Real.sin_pi_div_two]
  norm_num [Real.sqrt_one, Real.sqrt_zero, atan2_one_zero]
  ring

/-- Counterexample to claim C4: over the origin-to-(0°,180°) edge, a single
INACTIVE ramp at the origin still discounts the weight by 0.8 under wheelchair
preferences, because `findFeaturesOnPath` never looks at `isActive`. -/
theorem inactive_feature_changes_weight :
    calculatePathWeight [inactiveRamp] [] origin equator180 wheelchairPrefs =
      ↑((6371e3 * Real.pi) * 0.8) ∧
    calculatePathWeight [] [] origin equator180 wheelchairPrefs =
      ↑(6371e3 * Real.pi) ∧
    ((6371e3 * Real.pi) * 0.8 : ℝ) ≠ 6371e3 * Real.pi := by
  have hnear : isPointNearLine origin origin equator180 20 = true :=
    isPointNearLine_left origin equator180 (by norm_num)
  refine ⟨?_, ?_, ?_⟩
  · unfold calculatePathWeight findObstaclesOnPath findFeaturesOnPath
    have hfil : List.filter
        (fun feature => isPointNearLine feature.location origin equator180 20)
        [inactiveRamp] = [inactiveRamp] := by
      simp [inactiveRamp, hnear]
    rw [hfil]
    simp only [List.filter_nil, obstacleLoop, featureLoop, wheelchairPrefs, inactiveRamp]
    norm_num [dist_origin_equator180]
  · unfold calculatePathWeight findObstaclesOnPath findFeaturesOnPath
    simp [obstacleLoop, featureLoop, dist_origin_equator180]
  · intro h
    nlinarith [Real.pi_pos]

theorem featureLoop_setActive (p : AccessibilityPreferences) (b : Bool) :
    ∀ (l : List AccessibilityFeature) (w : ℝ),
      featureLoop p (l.map (setActive b)) w = featureLoop p l w := by
  intro l
  induction l with
  | nil => intro w; rfl
  | cons f rest ih =>
    intro w
    simp only [List.map_cons, featureLoop, setActive]
    exact ih _

theorem findFeaturesOnPath_setActive (features : List AccessibilityFeature)
    (start stop : Location) (b : Bool) :
    findFeaturesOnPath (features.map (setActive b)) start stop =
      (findFeaturesOnPath features start stop).map (setActive b) := by
  unfold findFeaturesOnPath
  rw [List.filter_map]
  rfl

/-- Claim C4 (amended): the cost model reads features regardless of their
`isActive` flag — toggling every feature's flag (in particular activating or
deactivating them all) never changes `calculatePathWeight`; it is the presence
of a feature near the segment, active or not, that changes the weight. -/
theorem calculatePathWeight_ignores_isActive (features : List AccessibilityFeature)
    (obstacles : List AccessibilityObstacle) (start stop : Location)
    (preferences : AccessibilityPreferences) (b : Bool) :
    calculatePathWeight (features.map (setActive b)) obstacles start stop preferences =
      calculatePathWeight features obstacles start stop preferences := by
  unfold calculatePathWeight
  cases obstacleLoop preferences (findObstaclesOnPath obstacles start stop)
      (calculateBaseDistance start stop) with
  | none => rfl
  | some w =>
    simp only [findFeaturesOnPath_setActive, featureLoop_setActive]

/-! ## Claim: features on a route -/

theorem sameCoordinates_iff (a b : Location) : sameCoordinates a b = true ↔ a = b := by
  unfold sameCoordinates
  rw [Bool.and_eq_true, decide_eq_true_iff, decide_eq_true_iff]
  constructor
  · rintro ⟨h1, h2⟩; cases a; cases b; simp_all
  · rintro rfl; exact ⟨rfl, rfl⟩

theorem dedupPush_fold_mem {x : AccessibilityFeature} :
    ∀ (l acc : List AccessibilityFeature), x ∈ l.foldl dedupPush acc →
      x ∈ acc ∨ x ∈ l := by
  intro l
  induction l with
  | nil => intro acc h; exact Or.inl h
  | cons f rest ih =>
    intro acc h
    rcases ih (dedupPush acc f) h with h' | h'
    · unfold dedupPush at h'
      split at h'
      · exact Or.inl h'
      · rcases List.mem_append.mp h' with h'' | h''
        · exact Or.inl h''
        · exact Or.inr (List.mem_cons.mpr (Or.inl (List.mem_singleton.mp h'')))
    · exact Or.inr (List.mem_cons_of_mem f h')

theorem dedupPush_fold_mono {x : AccessibilityFeature} :
    ∀ (l acc : List AccessibilityFeature), x ∈ acc → x ∈ l.foldl dedupPush acc := by
  intro l
  induction l with
  | nil => intro acc h; exact h
  | cons f rest ih =>
    intro acc h
    apply ih
    unfold dedupPush
    split
    · exact h
    · exact List.mem_append_left _ h

theorem dedupPush_fold_covers {f : AccessibilityFeature} :
    ∀ (l acc : List AccessibilityFeature), f ∈ l →
      ∃ g ∈ l.foldl dedupPush acc, g.location = f.location := by
  intro l
  induction l with
  | nil => intro acc h; simp at h
  | cons f' rest ih =>
    intro acc h
    rcases List.mem_cons.mp h with rfl | hmem
    · by_cases hany :
        (acc.any (fun g => sameCoordinates g.location f.location)) = true
      · rcases List.any_eq_true.mp hany with ⟨g, hg, hsame⟩
        have hloc : g.location = f.location := (sameCoordinates_iff _ _).mp hsame
        refine ⟨g, ?_, hloc⟩
        rw [List.foldl_cons]
        apply dedupPush_fold_mono
        unfold dedupPush
        rw [if_pos hany]
        exact hg
      · refine ⟨f, ?_, rfl⟩
        rw [List.foldl_cons]
        apply dedupPush_fold_mono
        unfold dedupPush
        rw [if_neg hany]
        exact List.mem_append_right _ (List.mem_singleton.mpr rfl)
    · exact ih (dedupPush acc f') hmem

theorem dedupPush_fold_pairwise :
    ∀ (l acc : List AccessibilityFeature),
      acc.Pairwise (fun a b => a.location ≠ b.location) →
      (l.foldl dedupPush acc).Pairwise (fun a b => a.location ≠ b.location) := by
  intro l
  induction l with
  | nil => intro acc h; exact h
  | cons f rest ih =>
    intro acc h
    apply ih
    unfold dedupPush
    split
    · exact h
    · next hany =>
      rw [List.pairwise_append]
      refine ⟨h, List.pairwise_singleton _ _, ?_⟩
      intro a ha b hb
      rw [List.mem_singleton.mp hb]
      intro hloc
      have : acc.any (fun g => sameCoordinates g.location f.location) = true :=
        List.any_eq_true.mpr ⟨a, ha, (sameCoordinates_iff _ _).mpr hloc⟩
      exact hany this

theorem gatherFeatures_mem {features : List AccessibilityFeature}
    {x : AccessibilityFeature} :
    ∀ (segs : List (Location × Location)) (acc : List AccessibilityFeature),
      x ∈ gatherFeatures features acc segs →
      x ∈ acc ∨ (x ∈ features ∧ x.isActive = true ∧
        ∃ pr ∈ segs, isPointNearLine x.location pr.1 pr.2 20 = true) := by
  intro segs
  induction segs with
  | nil => intro acc h; exact Or.inl h
  | cons pr rest ih =>
    intro acc h
    rcases pr with ⟨s, e⟩
    rcases ih _ h with h' | h'
    · rcases dedupPush_fold_mem _ _ h' with h'' | h''
      · exact Or.inl h''
      · rcases List.mem_filter.mp h'' with ⟨hmem, hcond⟩
        rcases Bool.and_eq_true_iff.mp hcond with ⟨hact, hnear⟩
        exact Or.inr ⟨hmem, hact, ⟨(s, e), List.mem_cons_self _ _, hnear⟩⟩
    · rcases h' with ⟨hmem, hact, pr', hpr', hnear⟩
      exact Or.inr ⟨hmem, hact, pr', List.mem_cons_of_mem _ hpr', hnear⟩

theorem gatherFeatures_mono {features : List AccessibilityFeature}
    {x : AccessibilityFeature} :
    ∀ (segs : List (Location × Location)) (acc : List AccessibilityFeature),
      x ∈ acc → x ∈ gatherFeatures features acc segs := by
  intro segs
  induction segs with
  | nil => intro acc h; exact h
  | cons pr rest ih =>
    intro acc h
    rcases pr with ⟨s, e⟩
    exact ih _ (dedupPush_fold_mono _ _ h)

theorem gatherFeatures_covers {features : List AccessibilityFeature}
    {f : AccessibilityFeature} (hmem : f ∈ features) (hact : f.isActive = true) :
    ∀ (segs : List (Location × Location)) (acc : List AccessibilityFeature),
      (∃ pr ∈ segs, isPointNearLine f.location pr.1 pr.2 20 = true) →
      ∃ g ∈ gatherFeatures features acc segs, g.location = f.location := by
  intro segs
  induction segs with
  | nil => intro acc h; simp at h
  | cons pr rest ih =>
    intro acc h
    rcases pr with ⟨s, e⟩
    rcases h with ⟨pr', hpr', hnear⟩
    rcases List.mem_cons.mp hpr' with rfl | hpr''
    · have hf : f ∈ features.filter
          (fun feature => feature.isActive && isPointNearLine feature.location s e 20) :=
        List.mem_filter.mpr ⟨hmem, by rw [Bool.and_eq_true]; exact ⟨hact, hnear⟩⟩
      rcases dedupPush_fold_covers _ acc hf with ⟨g, hg, hloc⟩
      exact ⟨g, gatherFeatures_mono rest _ hg, hloc⟩
    · exact ih _ ⟨pr', hpr'', hnear⟩

theorem gatherFeatures_pairwise {features : List AccessibilityFeature} :
    ∀ (segs : List (Location × Location)) (acc : List AccessibilityFeature),
      acc.Pairwise (fun a b => a.location ≠ b.location) →
      (gatherFeatures features acc segs).Pairwise (fun a b => a.location ≠ b.location) := by
  intro segs
  induction segs with
  | nil => intro acc h; exact h
  | cons pr rest ih =>
    intro acc h
    rcases pr with ⟨s, e⟩
    exact ih _ (dedupPush_fold_pairwise _ _ h)

/-- Claim C6: on a route of ≥ 2 points, `getAccessibleFeaturesOnRoute` returns
exactly (up to coordinate-deduplication) the stored features that are active
and pass the 20 m segment-near test on some consecutive pair, with pairwise
distinct coordinates, sorted by distance from the route's first point; on a
route of < 2 points it returns `[]` (and, being a total function, it never
fails). -/
theorem getAccessibleFeaturesOnRoute_spec (features : List AccessibilityFeature)
    (route : List Location) :
    (route.length < 2 → getAccessibleFeaturesOnRoute features route = []) ∧
    (2 ≤ route.length →
      (∀ f ∈ getAccessibleFeaturesOnRoute features route,
        f ∈ features ∧ f.isActive = true ∧
          ∃ pr ∈ route.zip route.tail, isPointNearLine f.location pr.1 pr.2 20 = true) ∧
      (∀ f ∈ features, f.isActive = true →
        (∃ pr ∈ route.zip route.tail, isPointNearLine f.location pr.1 pr.2 20 = true) →
        ∃ g ∈ getAccessibleFeaturesOnRoute features route, g.location = f.location) ∧
      (getAccessibleFeaturesOnRoute features route).Pairwise
        (fun a b => a.location ≠ b.location) ∧
      (getAccessibleFeaturesOnRoute features route).Pairwise
        (fun a b => calculateBaseDistance route.headI a.location ≤
          calculateBaseDistance route.headI b.location)) := by
  constructor
  · intro hlen
    unfold getAccessibleFeaturesOnRoute
    rw [if_pos hlen]
  · intro hlen
    have hnotlt : ¬(route.length < 2) := not_lt.mpr hlen
    unfold getAccessibleFeaturesOnRoute
    rw [if_neg hnotlt]
    refine ⟨?_, ?_, ?_, ?_⟩
    · intro f hf
      have hf' := List.mem_mergeSort.mp hf
      rcases gatherFeatures_mem _ _ hf' with h | h
      · simp at h
      · exact h
    · intro f hf hact hnear
      rcases gatherFeatures_covers hf hact _ [] hnear with ⟨g, hg, hloc⟩
      exact ⟨g, List.mem_mergeSort.mpr hg, hloc⟩
    · have hp := @gatherFeatures_pairwise features
        (route.zip route.tail) [] (List.Pairwise.nil)
      have hperm := List.mergeSort_perm (gatherFeatures features [] (route.zip route.tail))
        (fun a b => decide (calculateBaseDistance route.headI a.location ≤
          calculateBaseDistance route.headI b.location))
      exact (hperm.pairwise_iff (by intro a b h; exact h.symm)).mpr hp
    · have hs := @List.sorted_mergeSort AccessibilityFeature
        (fun a b : AccessibilityFeature =>
          decide (calculateBaseDistance route.headI a.location ≤
            calculateBaseDistance route.headI b.location))
        (fun a b c h1 h2 => by
          rw [decide_eq_true_iff] at h1 h2 ⊢
          exact le_trans h1 h2)
        (fun a b => by
          rw [Bool.or_eq_true, decide_eq_true_iff, decide_eq_true_iff]
          exact le_total _ _)
        (gatherFeatures features [] (route.zip route.tail))
      exact hs.imp (fun h => decide_eq_true_iff.mp h)
/-! ## Chain lemmas for the A* search -/

theorem chain_unique {cf : Location → Option Location} {start : Location} :
    ∀ {l1 l2 : List Location}, IsChain cf start l1 → IsChain cf start l2 →
      l1.head? = l2.head? → l1 = l2 := by
  intro l1 l2 h1
  induction h1 generalizing l2 with
  | base hnone =>
    intro h2 hh
    cases h2 with
    | base _ => rfl
    | step hx hch =>
      rename_i x y l
      have hxs : start = x := by simpa using hh
      rw [← hxs] at hx
      rw [hnone] at hx
      exact absurd hx (by simp)
  | step hx hch ih =>
    rename_i x y l
    intro h2 hh
    cases h2 with
    | base hnone =>
      have hxs : x = start := by simpa using hh
      rw [hxs, hnone] at hx
      exact absurd hx (by simp)
    | step hx' hch' =>
      rename_i x' y' l'
      have hxx : x = x' := by simpa using hh
      subst hxx
      rw [hx] at hx'
      have hyy : y = y' := by simpa using hx'
      subst hyy
      have := ih hch' rfl
      simpa using this

theorem chain_mem_suffix {cf : Location → Option Location} {start : Location} :
    ∀ {l : List Location}, IsChain cf start l → ∀ {z : Location}, z ∈ l →
      ∃ t, IsChain cf start (z :: t) ∧ (z :: t) <:+ l := by
  intro l h
  induction h with
  | base hnone =>
    intro z hz
    rw [List.mem_singleton.mp hz]
    exact ⟨[], IsChain.base hnone, List.suffix_refl _⟩
  | step hx hch ih =>
    rename_i x y l
    intro z hz
    rcases List.mem_cons.mp hz with rfl | hz'
    · exact ⟨y :: l, IsChain.step hx hch, List.suffix_refl _⟩
    · rcases ih hz' with ⟨t, ht, hsuf⟩
      exact ⟨t, ht, hsuf.trans (List.suffix_cons x (y :: l))⟩

theorem chain_nodup {cf : Location → Option Location} {start : Location} :
    ∀ {l : List Location}, IsChain cf start l → l.Nodup := by
  intro l h
  induction h with
  | base _ => exact List.nodup_singleton _
  | step hx hch ih =>
    rename_i x y l
    rw [List.nodup_cons]
    refine ⟨?_, ih⟩
    intro hxin
    rcases chain_mem_suffix hch hxin with ⟨t, ht, hsuf⟩
    have hequ := chain_unique (IsChain.step hx hch) ht rfl
    have heq : y :: l = t := by injection hequ
    rw [← heq] at hsuf
    have hlen := hsuf.length_le
    simp at hlen

theorem chain_mem_dom {cf : Location → Option Location} {start : Location} :
    ∀ {l : List Location}, IsChain cf start l → ∀ z ∈ l, z = start ∨ cf z ≠ none := by
  intro l h
  induction h with
  | base _ =>
    intro z hz
    exact Or.inl (List.mem_singleton.mp hz)
  | step hx hch ih =>
    rename_i x y l
    intro z hz
    rcases List.mem_cons.mp hz with rfl | hz'
    · exact Or.inr (by rw [hx]; simp)
    · exact ih z hz'

theorem chain_getLast {cf : Location → Option Location} {start : Location} :
    ∀ {l : List Location}, IsChain cf start l → l.getLast? = some start := by
  intro l h
  induction h with
  | base _ => rfl
  | step hx hch ih =>
    rename_i x y l
    rw [List.getLast?_cons_cons]
    exact ih

theorem chain_length_le {cf : Location → Option Location} {start : Location}
    {l : List Location} (h : IsChain cf start l) (s : Finset Location)
    (hdom : ∀ x, cf x ≠ none → x ∈ s) : l.length ≤ s.card + 1 := by
  have hnd : l.Nodup := chain_nodup h
  have hsub : l.toFinset ⊆ insert start s := by
    intro z hz
    rcases chain_mem_dom h z (List.mem_toFinset.mp hz) with rfl | hz'
    · exact Finset.mem_insert_self _ _
    · exact Finset.mem_insert_of_mem (hdom z hz')
  calc l.length = l.toFinset.card := (List.toFinset_card_of_nodup hnd).symm
    _ ≤ (insert start s).card := Finset.card_le_card hsub
    _ ≤ s.card + 1 := Finset.card_insert_le _ _

theorem reconstructPath_succ (fuel : ℕ) (cf : Location → Option Location)
    (current : Location) :
    reconstructPath (fuel + 1) cf current =
      match cf current with
      | none => [current]
      | some prev => reconstructPath fuel cf prev ++ [current] := rfl

theorem reconstructPath_eq_reverse {cf : Location → Option Location}
    {start : Location} :
    ∀ {l : List Location}, IsChain cf start l →
      ∀ {x : Location} {t : List Location}, l = x :: t →
      ∀ fuel : ℕ, l.length ≤ fuel + 1 → reconstructPath fuel cf x = l.reverse := by
  intro l h
  induction h with
  | base hnone =>
    rintro x t ⟨rfl, rfl⟩ fuel _
    cases fuel with
    | zero => rfl
    | succ m =>
      simp only [reconstructPath_succ, hnone]
      simp
  | step hx hch ih =>
    rename_i x0 y l0
    rintro x t ⟨rfl, rfl⟩ fuel hlen
    cases fuel with
    | zero => simp at hlen
    | succ m =>
      simp only [reconstructPath_succ, hx]
      have hlen' : (y :: l0).length ≤ m + 1 := by
        simp only [List.length_cons] at hlen ⊢
        omega
      rw [ih rfl m hlen']
      simp [List.reverse_cons]

/-! ## Chain preservation under a back-pointer update -/

theorem chain_update_low {cf : Location → Option Location} {start n c : Location}
    {g : Location → WithTop ℝ}
    (hpar : ∀ x y, cf x = some y → g y ≤ g x)
    (hlt : g c < g n) (hns : n ≠ start) :
    ∀ {l : List Location} {x : Location}, IsChain cf start (x :: l) → g x ≤ g c →
      IsChain (fun z => if z = n then some c else cf z) start (x :: l) := by
  intro l x h
  generalize hxl : x :: l = xl at h
  induction h generalizing x l with
  | base hnone =>
    rcases List.cons.injEq _ _ _ _ ▸ hxl with ⟨rfl, rfl⟩
    intro _
    exact IsChain.base (by rw [if_neg (Ne.symm hns)]; exact hnone)
  | step hx hch ih =>
    rename_i x0 y l0
    rcases List.cons.injEq _ _ _ _ ▸ hxl with ⟨rfl, rfl⟩
    intro hgx
    have hxn : x ≠ n := by
      rintro rfl
      exact absurd hlt (not_lt.mpr hgx)
    have hy : g y ≤ g c := le_trans (hpar _ _ hx) hgx
    exact IsChain.step (by rw [if_neg hxn]; exact hx) (ih rfl hy)

theorem chain_update_reroute {cf : Location → Option Location} {start n c : Location}
    {lc : List Location}
    (hnc : IsChain (fun z => if z = n then some c else cf z) start (n :: lc))
    (hns : n ≠ start) :
    ∀ {l : List Location} {x : Location}, IsChain cf start (x :: l) →
      ∃ l', IsChain (fun z => if z = n then some c else cf z) start (x :: l') := by
  intro l x h
  generalize hxl : x :: l = xl at h
  induction h generalizing x l with
  | base hnone =>
    rcases List.cons.injEq _ _ _ _ ▸ hxl with ⟨rfl, rfl⟩
    exact ⟨[], IsChain.base (by rw [if_neg (Ne.symm hns)]; exact hnone)⟩
  | step hx hch ih =>
    rename_i x0 y l0
    rcases List.cons.injEq _ _ _ _ ▸ hxl with ⟨rfl, rfl⟩
    by_cases hxn : x = n
    · subst hxn
      exact ⟨lc, hnc⟩
    · rcases ih rfl with ⟨l', hl'⟩
      exact ⟨y :: l', IsChain.step (by rw [if_neg hxn]; exact hx) hl'⟩

/-! ## Nonnegativity of edge weights -/

theorem featureLoop_nonneg (p : AccessibilityPreferences) :
    ∀ (l : List AccessibilityFeature) (w : ℝ), 0 ≤ w → 0 ≤ featureLoop p l w := by
  intro l
  induction l with
  | nil => intro w hw; exact hw
  | cons f rest ih =>
    intro w hw
    simp only [featureLoop]
    apply ih
    split
    · split
      · nlinarith
      · nlinarith
    · split
      · nlinarith
      · exact hw

theorem obstacleLoop_nonneg (p : AccessibilityPreferences) :
    ∀ (l : List AccessibilityObstacle) (w : ℝ), 0 ≤ w →
      ∀ w', obstacleLoop p l w = some w' → 0 ≤ w' := by
  intro l
  induction l with
  | nil =>
    intro w hw w' h
    simp only [obstacleLoop, Option.some.injEq] at h
    rw [← h]; exact hw
  | cons o rest ih =>
    intro w hw w' h
    simp only [obstacleLoop] at h
    split at h
    · exact absurd h (by simp)
    · split at h
      · exact ih _ (by nlinarith) _ h
      · exact ih _ hw _ h

theorem calculatePathWeight_nonneg (features : List AccessibilityFeature)
    (obstacles : List AccessibilityObstacle) (start stop : Location)
    (preferences : AccessibilityPreferences) :
    0 ≤ calculatePathWeight features obstacles start stop preferences := by
  unfold calculatePathWeight
  split
  · exact le_top
  · next w h =>
    have hw : 0 ≤ w :=
      obstacleLoop_nonneg preferences _ _ (calculateBaseDistance_nonneg start stop) w h
    have := featureLoop_nonneg preferences (findFeaturesOnPath features start stop) w hw
    exact_mod_cast this

/-! ## Neighbour generation lemmas -/

theorem getAccessibleNeighbors_ne_current (obstacles : List AccessibilityObstacle)
    (current : Location) (preferences : AccessibilityPreferences) :
    ∀ n ∈ getAccessibleNeighbors obstacles current preferences, n ≠ current := by
  intro n hn
  unfold getAccessibleNeighbors at hn
  have hn' := List.mem_of_mem_filter hn
  rcases List.mem_map.mp hn' with ⟨ij, hij, rfl⟩
  intro heq
  have h1 : current.latitude + ij.1 * 0.0001 = current.latitude := congrArg Location.latitude heq
  have h2 : current.longitude + ij.2 * 0.0001 = current.longitude := congrArg Location.longitude heq
  have hij1 : ij.1 = 0 := by nlinarith
  have hij2 : ij.2 = 0 := by nlinarith
  simp only [gridOffsets, List.mem_cons, List.not_mem_nil, or_false] at hij
  rcases hij with h | h | h | h | h | h | h | h <;>
    (rw [h] at hij1 hij2; norm_num at hij1 hij2)

theorem getAccessibleNeighbors_length_le (obstacles : List AccessibilityObstacle)
    (current : Location) (preferences : AccessibilityPreferences) :
    (getAccessibleNeighbors obstacles current preferences).length ≤ 8 := by
  unfold getAccessibleNeighbors
  calc (List.filter _ _).length ≤ (List.map _ gridOffsets).length :=
        List.length_filter_le _ _
    _ = 8 := by simp [gridOffsets]

/-! ## `getLowestFScore` lemmas -/

theorem getLowest_aux_mem (fScore : Location → WithTop ℝ) :
    ∀ (l : List Location) (acc : WithTop ℝ × Option Location) (c : Location),
      (l.foldl (fun acc node =>
        if fScore node < acc.1 then (fScore node, some node) else acc) acc).2 = some c →
      acc.2 = some c ∨ c ∈ l := by
  intro l
  induction l with
  | nil => intro acc c h; exact Or.inl h
  | cons x rest ih =>
    intro acc c h
    rcases ih _ c h with h' | h'
    · dsimp only at h'
      split at h'
      · exact Or.inr (List.mem_cons.mpr (Or.inl (by simpa using h'.symm)))
      · exact Or.inl h'
    · exact Or.inr (List.mem_cons_of_mem x h')

theorem getLowestFScore_mem (openSet : List Location) (fScore : Location → WithTop ℝ)
    (c : Location) (h : getLowestFScore openSet fScore = some c) : c ∈ openSet := by
  unfold getLowestFScore at h
  rcases getLowest_aux_mem fScore openSet _ c h with h' | h'
  · exact absurd h' (by simp)
  · exact h'

theorem getLowest_aux_some (fScore : Location → WithTop ℝ) :
    ∀ (l : List Location) (acc : WithTop ℝ × Option Location), acc.2 ≠ none →
      (l.foldl (fun acc node =>
        if fScore node < acc.1 then (fScore node, some node) else acc) acc).2 ≠ none := by
  intro l
  induction l with
  | nil => intro acc h; exact h
  | cons x rest ih =>
    intro acc h
    apply ih
    dsimp only
    split
    · simp
    · exact h

theorem getLowestFScore_isSome (openSet : List Location) (fScore : Location → WithTop ℝ)
    (x : Location) (rest : List Location) (hx : openSet = x :: rest)
    (hfin : fScore x ≠ ⊤) : getLowestFScore openSet fScore ≠ none := by
  unfold getLowestFScore
  rw [hx, List.foldl_cons]
  have hcond : fScore x < (⊤ : WithTop ℝ) := lt_top_iff_ne_top.mpr hfin
  rw [if_pos hcond]
  exact getLowest_aux_some fScore rest _ (by simp)

/-! ## Invariant preservation through one neighbour update -/

theorem processNeighbor_inv (features : List AccessibilityFeature)
    (obstacles : List AccessibilityObstacle) (preferences : AccessibilityPreferences)
    (stop current start : Location) (st : SearchState) (n : Location)
    (hn : n ≠ current) (hinv : Inv start st)
    (hcur : ∃ l, IsChain st.cameFrom start (current :: l)) :
    Inv start (processNeighbor features obstacles preferences stop current st n) ∧
    (∃ l, IsChain
      (processNeighbor features obstacles preferences stop current st n).cameFrom
      start (current :: l)) ∧
    (∀ x, (processNeighbor features obstacles preferences stop current st n).cameFrom x ≠
      none → x = n ∨ st.cameFrom x ≠ none) := by
  simp only [processNeighbor]
  by_cases hcond : st.gScore current +
      calculatePathWeight features obstacles current n preferences < st.gScore n
  case neg =>
    rw [if_neg hcond]
    exact ⟨hinv, hcur, fun x hx => Or.inr hx⟩
  case pos =>
    rw [if_pos hcond]
    have hw0 : 0 ≤ calculatePathWeight features obstacles current n preferences :=
      calculatePathWeight_nonneg _ _ _ _ _
    have htc : st.gScore current ≤ st.gScore current +
        calculatePathWeight features obstacles current n preferences :=
      le_add_of_nonneg_right hw0
    have ht0 : (0 : WithTop ℝ) ≤ st.gScore current +
        calculatePathWeight features obstacles current n preferences :=
      le_trans (hinv.g_nonneg current) htc
    have hns : n ≠ start := by
      rintro rfl
      rw [hinv.g_start] at hcond
      exact absurd hcond (not_lt.mpr ht0)
    have hlt : st.gScore current < st.gScore n := lt_of_le_of_lt htc hcond
    rcases hcur with ⟨lc, hchain⟩
    have hcur' : IsChain (fun z => if z = n then some current else st.cameFrom z)
        start (current :: lc) :=
      chain_update_low hinv.parent_le hlt hns hchain (le_refl _)
    have hnchain : IsChain (fun z => if z = n then some current else st.cameFrom z)
        start (n :: current :: lc) :=
      IsChain.step (by rw [if_pos rfl]) hcur'
    refine ⟨⟨?_, ?_, ?_, ?_, ?_⟩, ⟨lc, hcur'⟩, ?_⟩
    · show (if start = n then _ else st.gScore start) = 0
      rw [if_neg (Ne.symm hns)]
      exact hinv.g_start
    · intro x
      show (0 : WithTop ℝ) ≤ (if x = n then _ else st.gScore x)
      split
      · exact ht0
      · exact hinv.g_nonneg x
    · intro x y hxy
      show (if y = n then _ else st.gScore y) ≤ (if x = n then _ else st.gScore x)
      simp only at hxy
      by_cases hxn : x = n
      · rw [if_pos hxn] at hxy
        have hyc : y = current := by simpa using hxy.symm
        subst hyc
        rw [if_pos hxn, if_neg (Ne.symm hn)]
        exact htc
      · rw [if_neg hxn] at hxy
        rw [if_neg hxn]
        by_cases hyn : y = n
        · subst hyn
          rw [if_pos rfl]
          exact le_of_lt (lt_of_lt_of_le hcond (hinv.parent_le x y hxy))
        · rw [if_neg hyn]
          exact hinv.parent_le x y hxy
    · intro x hx
      simp only at hx
      by_cases hxn : x = n
      · subst hxn
        exact ⟨current :: lc, hnchain⟩
      · have hold : x ∈ st.openSet ∨ st.cameFrom x ≠ none := by
          rcases hx with hx | hx
          · rcases List.mem_append.mp hx with h | h
            · exact Or.inl h
            · exact absurd (List.mem_singleton.mp h) hxn
          · rw [if_neg hxn] at hx
            exact Or.inr hx
        rcases hinv.chains x hold with ⟨l, hl⟩
        exact chain_update_reroute hnchain hns hl
    · intro x hx
      simp only at hx ⊢
      by_cases hxn : x = n
      · rw [if_pos hxn]
        exact WithTop.add_ne_top.mpr ⟨ne_top_of_lt hcond, WithTop.coe_ne_top⟩
      · rw [if_neg hxn]
        rcases List.mem_append.mp hx with h | h
        · exact hinv.f_fin x h
        · exact absurd (List.mem_singleton.mp h) hxn
    · intro x hx
      simp only at hx
      by_cases hxn : x = n
      · exact Or.inl hxn
      · rw [if_neg hxn] at hx
        exact Or.inr hx

/-! ## Invariant preservation through a whole expansion -/

theorem expand_fold_inv (features : List AccessibilityFeature)
    (obstacles : List AccessibilityObstacle) (preferences : AccessibilityPreferences)
    (stop current start : Location) :
    ∀ (nbrs : List Location) (st : SearchState) (s : Finset Location),
      (∀ n ∈ nbrs, n ≠ current) → Inv start st →
      (∃ l, IsChain st.cameFrom start (current :: l)) → DomIn st s →
      Inv start (nbrs.foldl (processNeighbor features obstacles preferences stop current) st) ∧
      ∃ s' : Finset Location,
        DomIn (nbrs.foldl (processNeighbor features obstacles preferences stop current) st) s' ∧
        s'.card ≤ s.card + nbrs.length := by
  intro nbrs
  induction nbrs with
  | nil =>
    intro st s _ hinv _ hdom
    exact ⟨hinv, s, hdom, by simp⟩
  | cons n rest ih =>
    intro st s hne hinv hcur hdom
    rw [List.foldl_cons]
    rcases processNeighbor_inv features obstacles preferences stop current start st n
      (hne n (List.mem_cons_self _ _)) hinv hcur with ⟨hinv1, hcur1, hdomstep⟩
    have hdom1 : DomIn (processNeighbor features obstacles preferences stop current st n)
        (insert n s) := by
      intro x hx
      rcases hdomstep x hx with rfl | hx'
      · exact Finset.mem_insert_self _ _
      · exact Finset.mem_insert_of_mem (hdom x hx')
    rcases ih _ (insert n s) (fun m hm => hne m (List.mem_cons_of_mem _ hm)) hinv1 hcur1 hdom1
      with ⟨hinvf, s', hdomf, hcardf⟩
    refine ⟨hinvf, s', hdomf, ?_⟩
    have := Finset.card_insert_le n s
    simp only [List.length_cons]
    omega

theorem inv_erase {start current : Location} {st : SearchState} (hinv : Inv start st) :
    Inv start { st with openSet := st.openSet.erase current } := by
  refine ⟨hinv.g_start, hinv.g_nonneg, hinv.parent_le, ?_, ?_⟩
  · intro x hx
    apply hinv.chains x
    rcases hx with hx | hx
    · exact Or.inl (List.mem_of_mem_erase hx)
    · exact Or.inr hx
  · intro x hx
    exact hinv.f_fin x (List.mem_of_mem_erase hx)

/-! ## Soundness of the search loop -/

theorem inv_init (start stop : Location) :
    Inv start
      { openSet := [start]
        cameFrom := fun _ => none
        gScore := fun x => if x = start then 0 else ⊤
        fScore := fun x => if x = start then ↑(estimateDistance start stop) else ⊤ } := by
  refine ⟨?_, ?_, ?_, ?_, ?_⟩
  · show (if start = start then (0 : WithTop ℝ) else ⊤) = 0
    rw [if_pos rfl]
  · intro x
    show (0 : WithTop ℝ) ≤ if x = start then 0 else ⊤
    split
    · exact le_refl 0
    · exact le_top
  · intro x y hxy
    exact absurd hxy (by simp)
  · intro x hx
    rcases hx with hx | hx
    · rw [List.mem_singleton.mp hx]
      exact ⟨[], IsChain.base rfl⟩
    · exact absurd hx (by simp)
  · intro x hx
    rw [List.mem_singleton.mp hx]
    show (if start = start then (↑(estimateDistance start stop) : WithTop ℝ) else ⊤) ≠ ⊤
    rw [if_pos rfl]
    exact WithTop.coe_ne_top

theorem searchLoop_sound (features : List AccessibilityFeature)
    (obstacles : List AccessibilityObstacle) (preferences : AccessibilityPreferences)
    (stop start : Location) :
    ∀ (fuel steps : ℕ) (st : SearchState) (s : Finset Location),
      Inv start st → DomIn st s → s.card ≤ 8 * steps →
      searchLoop features obstacles preferences stop fuel steps st = .noRoute ∨
      searchLoop features obstacles preferences stop fuel steps st = .outOfFuel ∨
      ∃ r, searchLoop features obstacles preferences stop fuel steps st = .found r ∧
        r ≠ [] ∧ r.head? = some start ∧
        ∃ la, r.getLast? = some la ∧ calculateBaseDistance la stop < 5 := by
  intro fuel
  induction fuel with
  | zero =>
    intro steps st s _ _ _
    exact Or.inr (Or.inl rfl)
  | succ m ih =>
    intro steps st s hinv hdom hcard
    simp only [searchLoop]
    by_cases hempty : st.openSet.isEmpty = true
    · rw [if_pos hempty]
      exact Or.inl rfl
    · rw [if_neg hempty]
      obtain ⟨x, rest, hop⟩ : ∃ x rest, st.openSet = x :: rest := by
        cases h : st.openSet with
        | nil => rw [h] at hempty; simp at hempty
        | cons a b => exact ⟨a, b, rfl⟩
      have hxfin : st.fScore x ≠ ⊤ :=
        hinv.f_fin x (by rw [hop]; exact List.mem_cons_self x rest)
      have hne := getLowestFScore_isSome st.openSet st.fScore x rest hop hxfin
      obtain ⟨current, hlow⟩ : ∃ c, getLowestFScore st.openSet st.fScore = some c := by
        cases h : getLowestFScore st.openSet st.fScore with
        | none => exact absurd h hne
        | some c => exact ⟨c, rfl⟩
      rw [hlow]
      dsimp only
      have hcur_mem : current ∈ st.openSet := getLowestFScore_mem _ _ _ hlow
      by_cases hdest : isAtDestination current stop = true
      · rw [if_pos hdest]
        rcases hinv.chains current (Or.inl hcur_mem) with ⟨l, hchain⟩
        have hlen : (current :: l).length ≤ s.card + 1 := chain_length_le hchain s hdom
        have hlen' : (current :: l).length ≤ (8 * steps + 1) + 1 := by omega
        have hrec := reconstructPath_eq_reverse hchain rfl (8 * steps + 1) hlen'
        refine Or.inr (Or.inr ⟨_, rfl, ?_, ?_, ?_⟩)
        · rw [hrec]
          simp
        · rw [hrec, List.head?_reverse]
          exact chain_getLast hchain
        · refine ⟨current, ?_, ?_⟩
          · rw [hrec, List.getLast?_reverse]
            rfl
          · unfold isAtDestination at hdest
            exact of_decide_eq_true hdest
      · rw [if_neg hdest]
        have hinv_e : Inv start { st with openSet := st.openSet.erase current } :=
          inv_erase hinv
        have hdom_e : DomIn { st with openSet := st.openSet.erase current } s := hdom
        have hcur_e : ∃ l, IsChain
            ({ st with openSet := st.openSet.erase current } : SearchState).cameFrom
            start (current :: l) :=
          hinv.chains current (Or.inl hcur_mem)
        rcases expand_fold_inv features obstacles preferences stop current start
          (getAccessibleNeighbors obstacles current preferences)
          { st with openSet := st.openSet.erase current } s
          (getAccessibleNeighbors_ne_current obstacles current preferences)
          hinv_e hcur_e hdom_e with ⟨hinv1, s', hdom1, hcard1⟩
        have hlen8 := getAccessibleNeighbors_length_le obstacles current preferences
        have hcard' : s'.card ≤ 8 * (steps + 1) := by omega
        exact ih (steps + 1) _ s' hinv1 hdom1 hcard'

/-- Claim C2: whenever `findAccessibleRoute` succeeds (returns the `found`
outcome rather than one of the `throw` outcomes or running out of fuel), the
returned route is non-empty, begins exactly at `start`, and its last point is
within the 5-meter arrival tolerance of `stop`. -/
theorem found_route_endpoints (features : List AccessibilityFeature)
    (obstacles : List AccessibilityObstacle) (fuel : ℕ) (start stop : Location)
    (preferences : AccessibilityPreferences) (r : List Location)
    (h : findAccessibleRoute features obstacles fuel start stop preferences =
      .found r) :
    r ≠ [] ∧ r.head? = some start ∧
      ∃ la, r.getLast? = some la ∧ calculateBaseDistance la stop < 5 := by
  unfold findAccessibleRoute at h
  rcases searchLoop_sound features obstacles preferences stop start fuel 0 _ ∅
    (inv_init start stop) (fun x hx => absurd rfl hx) (by simp) with h1 | h1 | ⟨r', hr', hprops⟩
  · rw [h] at h1
    exact absurd h1 (by simp)
  · rw [h] at h1
    exact absurd h1 (by simp)
  · rw [h] at hr'
    have : r = r' := by
      injection hr'
    rw [this]
    exact hprops

/-- Evaluation of a degenerate but complete run: start within tolerance of the
destination, so the very first iteration succeeds with the one-point route. -/
theorem findAccessibleRoute_trivial_run :
    findAccessibleRoute [] [] 1 origin origin wheelchairPrefs =
      .found [origin] := by
  unfold findAccessibleRoute
  simp only [searchLoop]
  rw [if_neg (by simp)]
  have hlow : getLowestFScore [origin] (fun x => if x = origin then
      (↑(estimateDistance origin origin) : WithTop ℝ) else ⊤) = some origin := by
    unfold getLowestFScore
    rw [List.foldl_cons]
    dsimp only
    rw [if_pos rfl, if_pos (WithTop.coe_lt_top (estimateDistance origin origin))]
    rfl
  rw [hlow]
  have hdest : isAtDestination origin origin = true := by
    unfold isAtDestination
    rw [calculateBaseDistance_self]
    norm_num
  simp only [hdest, if_true]
  rfl

/-- Witness for claim C2: the degenerate run returns `[origin]`, which indeed
starts at `origin` and ends within 5 m of the destination. -/
theorem found_route_endpoints_witness :
    findAccessibleRoute [] [] 1 origin origin wheelchairPrefs = .found [origin] ∧
    ([origin] ≠ [] ∧ [origin].head? = some origin ∧
      ∃ la, [origin].getLast? = some la ∧ calculateBaseDistance la origin < 5) :=
  ⟨findAccessibleRoute_trivial_run,
    found_route_endpoints [] [] 1 origin origin wheelchairPrefs [origin]
      findAccessibleRoute_trivial_run⟩

/-- Claim C3: a search never hits the internal `'No nodes in open set'` error:
it either raises `NoRouteFound` (`noRoute`, exactly the open-set-exhausted
exit), is still running (`outOfFuel`, an artefact of the fuel embedding of the
unbounded `while`), or returns a complete route from `start` to within 5 m of
`stop` — never a partial route.  The embedding takes the knowledge base as
plain values and returns only the outcome, reflecting that the method never
writes the feature/obstacle collections. -/
theorem search_total_or_fails (features : List AccessibilityFeature)
    (obstacles : List AccessibilityObstacle) (fuel : ℕ) (start stop : Location)
    (preferences : AccessibilityPreferences) :
    (findAccessibleRoute features obstacles fuel start stop preferences ≠
      .frontierError) ∧
    (findAccessibleRoute features obstacles fuel start stop preferences = .noRoute ∨
      findAccessibleRoute features obstacles fuel start stop preferences = .outOfFuel ∨
      ∃ r, findAccessibleRoute features obstacles fuel start stop preferences = .found r ∧
        r ≠ [] ∧ r.head? = some start ∧
        ∃ la, r.getLast? = some la ∧ calculateBaseDistance la stop < 5) := by
  have hs := searchLoop_sound features obstacles preferences stop start fuel 0 _ ∅
    (inv_init start stop) (fun x hx => absurd rfl hx) (by simp)
  constructor
  · intro hcontra
    unfold findAccessibleRoute at hcontra
    rcases hs with h | h | ⟨r, h, _⟩ <;> rw [hcontra] at h <;> simp at h
  · exact hs

/-! ## Interval bounds for the haversine distance -/

theorem calculateBaseDistance_havA (p q : Location) :
    calculateBaseDistance p q =
      6371e3 * (2 * atan2 (Real.sqrt (havA p q)) (Real.sqrt (1 - havA p q))) := rfl

theorem arctan_le_self {z : ℝ} (hz : 0 ≤ z) : Real.arctan z ≤ z := by
  rcases eq_or_lt_of_le hz with h | h
  · rw [← h, Real.arctan_zero]
  · have h1 : 0 < Real.arctan z := by
      have := Real.arctan_strictMono h
      simpa [Real.arctan_zero] using this
    have h2 := Real.lt_tan h1 (Real.arctan_lt_pi_div_two z)
    rw [Real.tan_arctan] at h2
    exact le_of_lt h2

theorem arctan_ratio_ge {a : ℝ} (h0 : 0 ≤ a) (h1 : a < 1) :
    Real.sqrt a ≤ Real.arctan (Real.sqrt a / Real.sqrt (1 - a)) := by
  set z := Real.sqrt a / Real.sqrt (1 - a) with hz
  have hz0 : 0 ≤ z := div_nonneg (Real.sqrt_nonneg _) (Real.sqrt_nonneg _)
  have h1a : (0:ℝ) < 1 - a := by linarith
  have hsq : 1 + z ^ 2 = 1 / (1 - a) := by
    rw [hz, div_pow, Real.sq_sqrt h0, Real.sq_sqrt (le_of_lt h1a)]
    field_simp
  have hsin := Real.sin_arctan z
  have hle : Real.sin (Real.arctan z) ≤ Real.arctan z :=
    Real.sin_le (arctan_nonneg hz0)
  rw [hsin, hsq] at hle
  have hs : Real.sqrt (1 / (1 - a)) = 1 / Real.sqrt (1 - a) := by
    rw [one_div, one_div, Real.sqrt_inv]
  rw [hs] at hle
  have hs1a : (0:ℝ) < Real.sqrt (1 - a) := Real.sqrt_pos.mpr h1a
  calc Real.sqrt a = z / (1 / Real.sqrt (1 - a)) := by
        rw [hz]
        field_simp
    _ ≤ Real.arctan z := hle

theorem arctan_ratio_le {a : ℝ} (h0 : 0 ≤ a) :
    Real.arctan (Real.sqrt a / Real.sqrt (1 - a)) ≤ Real.sqrt (a / (1 - a)) := by
  have heq : Real.sqrt a / Real.sqrt (1 - a) = Real.sqrt (a / (1 - a)) :=
    (Real.sqrt_div h0 (1 - a)).symm
  rw [heq]
  exact arctan_le_self (Real.sqrt_nonneg _)

theorem atan2_sqrt_eq {a : ℝ} (h1 : a < 1) :
    atan2 (Real.sqrt a) (Real.sqrt (1 - a)) =
      Real.arctan (Real.sqrt a / Real.sqrt (1 - a)) := by
  unfold atan2
  rw [if_pos (Real.sqrt_pos.mpr (by linarith))]

theorem dist_lower_rat (p q : Location) (aLo dLo : ℝ) (h1 : aLo ≤ havA p q)
    (h2 : havA p q < 1) (h0 : 0 ≤ aLo) (hd0 : 0 ≤ dLo)
    (hd : dLo ^ 2 ≤ (2 * 6371e3) ^ 2 * aLo) :
    dLo ≤ calculateBaseDistance p q := by
  rw [calculateBaseDistance_havA, atan2_sqrt_eq h2]
  have ha0 : 0 ≤ havA p q := le_trans h0 h1
  have hθ : Real.sqrt (havA p q) ≥ Real.sqrt aLo := Real.sqrt_le_sqrt h1
  have harc := arctan_ratio_ge ha0 h2
  have hstep : Real.sqrt aLo ≤ Real.arctan (Real.sqrt (havA p q) / Real.sqrt (1 - havA p q)) :=
    le_trans hθ harc
  have hsq : dLo / (2 * 6371e3) ≤ Real.sqrt aLo := by
    rw [show aLo = Real.sqrt aLo ^ 2 from (Real.sq_sqrt h0).symm] at hd
    nlinarith [Real.sqrt_nonneg aLo]
  nlinarith [hstep, hsq]

theorem dist_upper_rat (p q : Location) (aHi dHi : ℝ) (h1 : havA p q ≤ aHi)
    (h2 : aHi < 1) (h0 : 0 ≤ havA p q) (hd0 : 0 ≤ dHi)
    (hd : (2 * 6371e3) ^ 2 * aHi ≤ dHi ^ 2 * (1 - aHi)) :
    calculateBaseDistance p q ≤ dHi := by
  have hlt1 : havA p q < 1 := lt_of_le_of_lt h1 h2
  rw [calculateBaseDistance_havA, atan2_sqrt_eq hlt1]
  have harc := arctan_ratio_le (a := havA p q) h0
  have hmono : havA p q / (1 - havA p q) ≤ aHi / (1 - aHi) := by
    rw [div_le_div_iff (by linarith) (by linarith)]
    nlinarith
  have hs2 : Real.sqrt (havA p q / (1 - havA p q)) ≤ Real.sqrt (aHi / (1 - aHi)) :=
    Real.sqrt_le_sqrt hmono
  have hfin : Real.sqrt (aHi / (1 - aHi)) ≤ dHi / (2 * 6371e3) := by
    have hq : aHi / (1 - aHi) ≤ (dHi / (2 * 6371e3)) ^ 2 := by
      rw [div_pow]
      rw [div_le_div_iff (by linarith) (by norm_num)]
      nlinarith
    calc Real.sqrt (aHi / (1 - aHi)) ≤
        Real.sqrt ((dHi / (2 * 6371e3)) ^ 2) := Real.sqrt_le_sqrt hq
      _ = dHi / (2 * 6371e3) := by
          rw [Real.sqrt_sq (by positivity)]
  nlinarith [harc, hs2, hfin]

/-! ## Exact axis-aligned distances -/

theorem dist_of_hav_sin_sq (p q : Location) (t : ℝ)
    (ha : havA p q = Real.sin t * Real.sin t) (ht0 : 0 ≤ t) (ht1 : t < Real.pi / 2) :
    calculateBaseDistance p q = 6371e3 * (2 * t) := by
  rw [calculateBaseDistance_havA, ha]
  have hsin0 : 0 ≤ Real.sin t :=
    Real.sin_nonneg_of_nonneg_of_le_pi ht0 (by linarith [Real.pi_pos])
  have hcos0 : 0 < Real.cos t :=
    Real.cos_pos_of_mem_Ioo ⟨by linarith [Real.pi_pos], ht1⟩
  have hcos : 1 - Real.sin t * Real.sin t = Real.cos t * Real.cos t := by
    nlinarith [Real.sin_sq_add_cos_sq t]
  rw [hcos, Real.sqrt_mul_self hsin0, Real.sqrt_mul_self hcos0.le]
  unfold atan2
  rw [if_pos hcos0, ← Real.tan_eq_sin_div_cos,
    Real.arctan_tan (by linarith [Real.pi_pos]) ht1]

theorem dist_meridian (la1 la2 lo : ℝ) (h : 0 ≤ la2 - la1)
    (hlt : (la2 - la1) * Real.pi / 180 / 2 < Real.pi / 2) :
    calculateBaseDistance ⟨la1, lo⟩ ⟨la2, lo⟩ =
      6371e3 * ((la2 - la1) * Real.pi / 180) := by
  have ha : havA ⟨la1, lo⟩ ⟨la2, lo⟩ =
      Real.sin ((la2 - la1) * Real.pi / 180 / 2) *
        Real.sin ((la2 - la1) * Real.pi / 180 / 2) := by
    unfold havA
    simp
  rw [dist_of_hav_sin_sq _ _ _ ha (by positivity) hlt]
  ring

theorem dist_equator (lo1 lo2 : ℝ) (h : 0 ≤ lo2 - lo1)
    (hlt : (lo2 - lo1) * Real.pi / 180 / 2 < Real.pi / 2) :
    calculateBaseDistance ⟨0, lo1⟩ ⟨0, lo2⟩ =
      6371e3 * ((lo2 - lo1) * Real.pi / 180) := by
  have ha : havA ⟨0, lo1⟩ ⟨0, lo2⟩ =
      Real.sin ((lo2 - lo1) * Real.pi / 180 / 2) *
        Real.sin ((lo2 - lo1) * Real.pi / 180 / 2) := by
    unfold havA
    simp
  rw [dist_of_hav_sin_sq _ _ _ ha (by positivity) hlt]
  ring

/-! ## Elementary bounds on sine and cosine at grid-scale angles -/

theorem sin_sq_abs (k x : ℝ) :
    Real.sin (k * x) * Real.sin (k * x) = Real.sin (|k| * x) * Real.sin (|k| * x) := by
  rcases abs_cases k with ⟨h, _⟩ | ⟨h, _⟩
  · rw [h]
  · rw [h, show -k * x = -(k * x) by ring, Real.sin_neg, neg_mul_neg]

theorem sin_ku_bounds (k : ℝ) (hk0 : 0 < k) (hk : k ≤ 3) :
    k * (3.141592 / 3600000) - 5e-18 ≤ Real.sin (k * (Real.pi / 3600000)) ∧
    Real.sin (k * (Real.pi / 3600000)) ≤ k * (3.141593 / 3600000) := by
  have hpi_lo := Real.pi_gt_3141592
  have hpi_hi := Real.pi_lt_3141593
  have hx0 : 0 < k * (Real.pi / 3600000) := by positivity
  have hxhi : k * (Real.pi / 3600000) ≤ 3 * (3.141593 / 3600000) := by nlinarith
  have hx1 : k * (Real.pi / 3600000) ≤ 1 := by nlinarith
  constructor
  · have h := Real.sin_gt_sub_cube hx0 hx1
    have hcube : (k * (Real.pi / 3600000)) ^ 3 ≤ (3 * (3.141593 / 3600000)) ^ 3 :=
      pow_le_pow_left hx0.le hxhi 3
    have hxlo : k * (3.141592 / 3600000) ≤ k * (Real.pi / 3600000) := by nlinarith
    nlinarith
  · have h := Real.sin_le hx0.le
    nlinarith

theorem cos_ku_ge (k : ℝ) (hk : |k| ≤ 3) :
    1 - 2e-11 ≤ Real.cos (k * (Real.pi / 1800000)) := by
  have h := Real.one_sub_sq_div_two_le_cos (x := k * (Real.pi / 1800000))
  have hpi_hi := Real.pi_lt_3141593
  have hpi0 := Real.pi_pos
  have hk2 : k ^ 2 ≤ 9 := by nlinarith [sq_abs k, abs_nonneg k]
  have hpisq : Real.pi ^ 2 ≤ (3.141593:ℝ) ^ 2 := by nlinarith
  have h2 : (k * (Real.pi / 1800000)) ^ 2 ≤ 4e-11 := by nlinarith [sq_nonneg k, sq_nonneg Real.pi]
  linarith

set_option maxHeartbeats 2000000 in
/-- Two-sided rational bounds on `havA` for a pair of points whose latitude
and longitude differences are `k1`, `k2` hundred-thousandths of a degree and
whose latitudes are `kp`, `kq` hundred-thousandths of a degree. -/
theorem havA_inst (p q : Location) (k1 k2 kp kq : ℝ)
    (e1 : (q.latitude - p.latitude) * Real.pi / 180 / 2 = k1 * (Real.pi / 3600000))
    (e2 : (q.longitude - p.longitude) * Real.pi / 180 / 2 = k2 * (Real.pi / 3600000))
    (e3 : p.latitude * Real.pi / 180 = kp * (Real.pi / 1800000))
    (e4 : q.latitude * Real.pi / 180 = kq * (Real.pi / 1800000))
    (hk1 : 1/2 ≤ |k1|) (hk1' : |k1| ≤ 3) (hk2 : 1/2 ≤ |k2|) (hk2' : |k2| ≤ 3)
    (hkp : |kp| ≤ 3) (hkq : |kq| ≤ 3) :
    (|k1| * (3.141592 / 3600000) - 5e-18) * (|k1| * (3.141592 / 3600000) - 5e-18) +
      (1 - 5e-11) * ((|k2| * (3.141592 / 3600000) - 5e-18) *
        (|k2| * (3.141592 / 3600000) - 5e-18)) ≤ havA p q ∧
    havA p q ≤ (|k1| * (3.141593 / 3600000)) * (|k1| * (3.141593 / 3600000)) +
      (|k2| * (3.141593 / 3600000)) * (|k2| * (3.141593 / 3600000)) := by
  have hy1 := sin_ku_bounds (|k1|) (by linarith) hk1'
  have hy2 := sin_ku_bounds (|k2|) (by linarith) hk2'
  have hx1 := sin_sq_abs k1 (Real.pi / 3600000)
  have hx2 := sin_sq_abs k2 (Real.pi / 3600000)
  have hc1 := cos_ku_ge kp hkp
  have hc2 := cos_ku_ge kq hkq
  have hc1' := Real.cos_le_one (kp * (Real.pi / 1800000))
  have hc2' := Real.cos_le_one (kq * (Real.pi / 1800000))
  have hl1 : (0:ℝ) ≤ |k1| * (3.141592 / 3600000) - 5e-18 := by nlinarith
  have hl2 : (0:ℝ) ≤ |k2| * (3.141592 / 3600000) - 5e-18 := by nlinarith
  have hy1nn : (0:ℝ) ≤ Real.sin (|k1| * (Real.pi / 3600000)) := le_trans hl1 hy1.1
  have hy2nn : (0:ℝ) ≤ Real.sin (|k2| * (Real.pi / 3600000)) := le_trans hl2 hy2.1
  have hq1 : (|k1| * (3.141592 / 3600000) - 5e-18) * (|k1| * (3.141592 / 3600000) - 5e-18) ≤
      Real.sin (|k1| * (Real.pi / 3600000)) * Real.sin (|k1| * (Real.pi / 3600000)) :=
    mul_le_mul hy1.1 hy1.1 hl1 hy1nn
  have hq2 : (|k2| * (3.141592 / 3600000) - 5e-18) * (|k2| * (3.141592 / 3600000) - 5e-18) ≤
      Real.sin (|k2| * (Real.pi / 3600000)) * Real.sin (|k2| * (Real.pi / 3600000)) :=
    mul_le_mul hy2.1 hy2.1 hl2 hy2nn
  have hq1' : Real.sin (|k1| * (Real.pi / 3600000)) * Real.sin (|k1| * (Real.pi / 3600000)) ≤
      (|k1| * (3.141593 / 3600000)) * (|k1| * (3.141593 / 3600000)) :=
    mul_le_mul hy1.2 hy1.2 hy1nn (by positivity)
  have hq2' : Real.sin (|k2| * (Real.pi / 3600000)) * Real.sin (|k2| * (Real.pi / 3600000)) ≤
      (|k2| * (3.141593 / 3600000)) * (|k2| * (3.141593 / 3600000)) :=
    mul_le_mul hy2.2 hy2.2 hy2nn (by positivity)
  have hcc : (1 - 5e-11 : ℝ) ≤ Real.cos (kp * (Real.pi / 1800000)) *
      Real.cos (kq * (Real.pi / 1800000)) := by nlinarith
  have hcc' : Real.cos (kp * (Real.pi / 1800000)) * Real.cos (kq * (Real.pi / 1800000)) ≤ 1 := by
    nlinarith
  have hcc0 : (0:ℝ) ≤ Real.cos (kp * (Real.pi / 1800000)) *
      Real.cos (kq * (Real.pi / 1800000)) := by nlinarith
  have hterm : (1 - 5e-11 : ℝ) * ((|k2| * (3.141592 / 3600000) - 5e-18) *
      (|k2| * (3.141592 / 3600000) - 5e-18)) ≤
      (Real.cos (kp * (Real.pi / 1800000)) * Real.cos (kq * (Real.pi / 1800000))) *
        (Real.sin (|k2| * (Real.pi / 3600000)) * Real.sin (|k2| * (Real.pi / 3600000))) :=
    mul_le_mul hcc hq2 (mul_nonneg hl2 hl2) hcc0
  have hterm' : (Real.cos (kp * (Real.pi / 1800000)) * Real.cos (kq * (Real.pi / 1800000))) *
      (Real.sin (|k2| * (Real.pi / 3600000)) * Real.sin (|k2| * (Real.pi / 3600000))) ≤
      1 * ((|k2| * (3.141593 / 3600000)) * (|k2| * (3.141593 / 3600000))) :=
    mul_le_mul hcc' hq2' (mul_nonneg hy2nn hy2nn) (by norm_num)
  unfold havA
  rw [e1, e2, e3, e4]
  constructor
  · nlinarith [hq1, hterm, hx1, hx2]
  · nlinarith [hq1', hterm', hx1, hx2]

/-! ## Concrete distance bounds for the open-set duplicate scenario -/

/-- Lower bound 15.72 m on the haversine distance from `origin` to `cexN1`. -/
theorem dist_lo_origin_n1 : (15.72 : ℝ) ≤ calculateBaseDistance origin cexN1 := by
  have e1 : (cexN1.latitude - origin.latitude) * Real.pi / 180 / 2 = (-1 : ℝ) * (Real.pi / 3600000) := by
    simp only [origin, cexN1]
    ring
  have e2 : (cexN1.longitude - origin.longitude) * Real.pi / 180 / 2 = (-1 : ℝ) * (Real.pi / 3600000) := by
    simp only [origin, cexN1]
    ring
  have e3 : origin.latitude * Real.pi / 180 = (0 : ℝ) * (Real.pi / 1800000) := by
    simp only [origin, cexN1]
    ring
  have e4 : cexN1.latitude * Real.pi / 180 = (-1 : ℝ) * (Real.pi / 1800000) := by
    simp only [origin, cexN1]
    ring
  obtain ⟨hlo, hhi⟩ := havA_inst origin cexN1 _ _ _ _ e1 e2 e3 e4
    (by norm_num [abs_of_nonpos, abs_of_nonneg]) (by norm_num [abs_of_nonpos, abs_of_nonneg]) (by norm_num [abs_of_nonpos, abs_of_nonneg]) (by norm_num [abs_of_nonpos, abs_of_nonneg]) (by norm_num [abs_of_nonpos, abs_of_nonneg]) (by norm_num [abs_of_nonpos, abs_of_nonneg])
  have hA : (1.523086465139e-12 : ℝ) ≤ havA origin cexN1 :=
    le_trans (by norm_num [abs_of_nonpos, abs_of_nonneg]) hlo
  have hA1 : havA origin cexN1 < 1 :=
    lt_of_le_of_lt hhi (by norm_num [abs_of_nonpos, abs_of_nonneg])
  exact dist_lower_rat origin cexN1 _ _ hA hA1 (by norm_num) (by norm_num) (by norm_num)

/-- Lower bound 15.72 m on the haversine distance from `origin` to `cexN3`. -/
theorem dist_lo_origin_n3 : (15.72 : ℝ) ≤ calculateBaseDistance origin cexN3 := by
  have e1 : (cexN3.latitude - origin.latitude) * Real.pi / 180 / 2 = (-1 : ℝ) * (Real.pi / 3600000) := by
    simp only [origin, cexN3]
    ring
  have e2 : (cexN3.longitude - origin.longitude) * Real.pi / 180 / 2 = (1 : ℝ) * (Real.pi / 3600000) := by
    simp only [origin, cexN3]
    ring
  have e3 : origin.latitude * Real.pi / 180 = (0 : ℝ) * (Real.pi / 1800000) := by
    simp only [origin, cexN3]
    ring
  have e4 : cexN3.latitude * Real.pi / 180 = (-1 : ℝ) * (Real.pi / 1800000) := by
    simp only [origin, cexN3]
    ring
  obtain ⟨hlo, hhi⟩ := havA_inst origin cexN3 _ _ _ _ e1 e2 e3 e4
    (by norm_num [abs_of_nonpos, abs_of_nonneg]) (by norm_num [abs_of_nonpos, abs_of_nonneg]) (by norm_num [abs_of_nonpos, abs_of_nonneg]) (by norm_num [abs_of_nonpos, abs_of_nonneg]) (by norm_num [abs_of_nonpos, abs_of_nonneg]) (by norm_num [abs_of_nonpos, abs_of_nonneg])
  have hA : (1.523086465139e-12 : ℝ) ≤ havA origin cexN3 :=
    le_trans (by norm_num [abs_of_nonpos, abs_of_nonneg]) hlo
  have hA1 : havA origin cexN3 < 1 :=
    lt_of_le_of_lt hhi (by norm_num [abs_of_nonpos, abs_of_nonneg])
  exact dist_lower_rat origin cexN3 _ _ hA hA1 (by norm_num) (by norm_num) (by norm_num)

/-- Lower bound 15.72 m on the haversine distance from `origin` to `cexN6`. -/
theorem dist_lo_origin_n6 : (15.72 : ℝ) ≤ calculateBaseDistance origin cexN6 := by
  have e1 : (cexN6.latitude - origin.latitude) * Real.pi / 180 / 2 = (1 : ℝ) * (Real.pi / 3600000) := by
    simp only [origin, cexN6]
    ring
  have e2 : (cexN6.longitude - origin.longitude) * Real.pi / 180 / 2 = (-1 : ℝ) * (Real.pi / 3600000) := by
    simp only [origin, cexN6]
    ring
  have e3 : origin.latitude * Real.pi / 180 = (0 : ℝ) * (Real.pi / 1800000) := by
    simp only [origin, cexN6]
    ring
  have e4 : cexN6.latitude * Real.pi / 180 = (1 : ℝ) * (Real.pi / 1800000) := by
    simp only [origin, cexN6]
    ring
  obtain ⟨hlo, hhi⟩ := havA_inst origin cexN6 _ _ _ _ e1 e2 e3 e4
    (by norm_num [abs_of_nonpos, abs_of_nonneg]) (by norm_num [abs_of_nonpos, abs_of_nonneg]) (by norm_num [abs_of_nonpos, abs_of_nonneg]) (by norm_num [abs_of_nonpos, abs_of_nonneg]) (by norm_num [abs_of_nonpos, abs_of_nonneg]) (by norm_num [abs_of_nonpos, abs_of_nonneg])
  have hA : (1.523086465139e-12 : ℝ) ≤ havA origin cexN6 :=
    le_trans (by norm_num [abs_of_nonpos, abs_of_nonneg]) hlo
  have hA1 : havA origin cexN6 < 1 :=
    lt_of_le_of_lt hhi (by norm_num [abs_of_nonpos, abs_of_nonneg])
  exact dist_lower_rat origin cexN6 _ _ hA hA1 (by norm_num) (by norm_num) (by norm_num)

/-- Lower bound 15.72 m on the haversine distance from `origin` to `cexN8`. -/
theorem dist_lo_origin_n8 : (15.72 : ℝ) ≤ calculateBaseDistance origin cexN8 := by
  have e1 : (cexN8.latitude - origin.latitude) * Real.pi / 180 / 2 = (1 : ℝ) * (Real.pi / 3600000) := by
    simp only [origin, cexN8]
    ring
  have e2 : (cexN8.longitude - origin.longitude) * Real.pi / 180 / 2 = (1 : ℝ) * (Real.pi / 3600000) := by
    simp only [origin, cexN8]
    ring
  have e3 : origin.latitude * Real.pi / 180 = (0 : ℝ) * (Real.pi / 1800000) := by
    simp only [origin, cexN8]
    ring
  have e4 : cexN8.latitude * Real.pi / 180 = (1 : ℝ) * (Real.pi / 1800000) := by
    simp only [origin, cexN8]
    ring
  obtain ⟨hlo, hhi⟩ := havA_inst origin cexN8 _ _ _ _ e1 e2 e3 e4
    (by norm_num [abs_of_nonpos, abs_of_nonneg]) (by norm_num [abs_of_nonpos, abs_of_nonneg]) (by norm_num [abs_of_nonpos, abs_of_nonneg]) (by norm_num [abs_of_nonpos, abs_of_nonneg]) (by norm_num [abs_of_nonpos, abs_of_nonneg]) (by norm_num [abs_of_nonpos, abs_of_nonneg])
  have hA : (1.523086465139e-12 : ℝ) ≤ havA origin cexN8 :=
    le_trans (by norm_num [abs_of_nonpos, abs_of_nonneg]) hlo
  have hA1 : havA origin cexN8 < 1 :=
    lt_of_le_of_lt hhi (by norm_num [abs_of_nonpos, abs_of_nonneg])
  exact dist_lower_rat origin cexN8 _ _ hA hA1 (by norm_num) (by norm_num) (by norm_num)

/-- Lower bound 15.72 m on the haversine distance from `cexN1` to `cexStop`. -/
theorem dist_lo_n1_stop : (15.72 : ℝ) ≤ calculateBaseDistance cexN1 cexStop := by
  have e1 : (cexStop.latitude - cexN1.latitude) * Real.pi / 180 / 2 = (-1 : ℝ) * (Real.pi / 3600000) := by
    simp only [cexN1, cexStop]
    ring
  have e2 : (cexStop.longitude - cexN1.longitude) * Real.pi / 180 / 2 = (1 : ℝ) * (Real.pi / 3600000) := by
    simp only [cexN1, cexStop]
    ring
  have e3 : cexN1.latitude * Real.pi / 180 = (-1 : ℝ) * (Real.pi / 1800000) := by
    simp only [cexN1, cexStop]
    ring
  have e4 : cexStop.latitude * Real.pi / 180 = (-2 : ℝ) * (Real.pi / 1800000) := by
    simp only [cexN1, cexStop]
    ring
  obtain ⟨hlo, hhi⟩ := havA_inst cexN1 cexStop _ _ _ _ e1 e2 e3 e4
    (by norm_num [abs_of_nonpos, abs_of_nonneg]) (by norm_num [abs_of_nonpos, abs_of_nonneg]) (by norm_num [abs_of_nonpos, abs_of_nonneg]) (by norm_num [abs_of_nonpos, abs_of_nonneg]) (by norm_num [abs_of_nonpos, abs_of_nonneg]) (by norm_num [abs_of_nonpos, abs_of_nonneg])
  have hA : (1.523086465139e-12 : ℝ) ≤ havA cexN1 cexStop :=
    le_trans (by norm_num [abs_of_nonpos, abs_of_nonneg]) hlo
  have hA1 : havA cexN1 cexStop < 1 :=
    lt_of_le_of_lt hhi (by norm_num [abs_of_nonpos, abs_of_nonneg])
  exact dist_lower_rat cexN1 cexStop _ _ hA hA1 (by norm_num) (by norm_num) (by norm_num)

/-- Lower bound 15.72 m on the haversine distance from `cexN3` to `cexStop`. -/
theorem dist_lo_n3_stop : (15.72 : ℝ) ≤ calculateBaseDistance cexN3 cexStop := by
  have e1 : (cexStop.latitude - cexN3.latitude) * Real.pi / 180 / 2 = (-1 : ℝ) * (Real.pi / 3600000) := by
    simp only [cexN3, cexStop]
    ring
  have e2 : (cexStop.longitude - cexN3.longitude) * Real.pi / 180 / 2 = (-1 : ℝ) * (Real.pi / 3600000) := by
    simp only [cexN3, cexStop]
    ring
  have e3 : cexN3.latitude * Real.pi / 180 = (-1 : ℝ) * (Real.pi / 1800000) := by
    simp only [cexN3, cexStop]
    ring
  have e4 : cexStop.latitude * Real.pi / 180 = (-2 : ℝ) * (Real.pi / 1800000) := by
    simp only [cexN3, cexStop]
    ring
  obtain ⟨hlo, hhi⟩ := havA_inst cexN3 cexStop _ _ _ _ e1 e2 e3 e4
    (by norm_num [abs_of_nonpos, abs_of_nonneg]) (by norm_num [abs_of_nonpos, abs_of_nonneg]) (by norm_num [abs_of_nonpos, abs_of_nonneg]) (by norm_num [abs_of_nonpos, abs_of_nonneg]) (by norm_num [abs_of_nonpos, abs_of_nonneg]) (by norm_num [abs_of_nonpos, abs_of_nonneg])
  have hA : (1.523086465139e-12 : ℝ) ≤ havA cexN3 cexStop :=
    le_trans (by norm_num [abs_of_nonpos, abs_of_nonneg]) hlo
  have hA1 : havA cexN3 cexStop < 1 :=
    lt_of_le_of_lt hhi (by norm_num [abs_of_nonpos, abs_of_nonneg])
  exact dist_lower_rat cexN3 cexStop _ _ hA hA1 (by norm_num) (by norm_num) (by norm_num)

/-- Lower bound 24.86 m on the haversine distance from `cexN4` to `cexStop`. -/
theorem dist_lo_n4_stop : (24.86 : ℝ) ≤ calculateBaseDistance cexN4 cexStop := by
  have e1 : (cexStop.latitude - cexN4.latitude) * Real.pi / 180 / 2 = (-2 : ℝ) * (Real.pi / 3600000) := by
    simp only [cexN4, cexStop]
    ring
  have e2 : (cexStop.longitude - cexN4.longitude) * Real.pi / 180 / 2 = (1 : ℝ) * (Real.pi / 3600000) := by
    simp only [cexN4, cexStop]
    ring
  have e3 : cexN4.latitude * Real.pi / 180 = (0 : ℝ) * (Real.pi / 1800000) := by
    simp only [cexN4, cexStop]
    ring
  have e4 : cexStop.latitude * Real.pi / 180 = (-2 : ℝ) * (Real.pi / 1800000) := by
    simp only [cexN4, cexStop]
    ring
  obtain ⟨hlo, hhi⟩ := havA_inst cexN4 cexStop _ _ _ _ e1 e2 e3 e4
    (by norm_num [abs_of_nonpos, abs_of_nonneg]) (by norm_num [abs_of_nonpos, abs_of_nonneg]) (by norm_num [abs_of_nonpos, abs_of_nonneg]) (by norm_num [abs_of_nonpos, abs_of_nonneg]) (by norm_num [abs_of_nonpos, abs_of_nonneg]) (by norm_num [abs_of_nonpos, abs_of_nonneg])
  have hA : (3.807716162923e-12 : ℝ) ≤ havA cexN4 cexStop :=
    le_trans (by norm_num [abs_of_nonpos, abs_of_nonneg]) hlo
  have hA1 : havA cexN4 cexStop < 1 :=
    lt_of_le_of_lt hhi (by norm_num [abs_of_nonpos, abs_of_nonneg])
  exact dist_lower_rat cexN4 cexStop _ _ hA hA1 (by norm_num) (by norm_num) (by norm_num)

/-- Lower bound 24.86 m on the haversine distance from `cexA` to `cexStop`. -/
theorem dist_lo_a_stop : (24.86 : ℝ) ≤ calculateBaseDistance cexA cexStop := by
  have e1 : (cexStop.latitude - cexA.latitude) * Real.pi / 180 / 2 = (-2 : ℝ) * (Real.pi / 3600000) := by
    simp only [cexA, cexStop]
    ring
  have e2 : (cexStop.longitude - cexA.longitude) * Real.pi / 180 / 2 = (-1 : ℝ) * (Real.pi / 3600000) := by
    simp only [cexA, cexStop]
    ring
  have e3 : cexA.latitude * Real.pi / 180 = (0 : ℝ) * (Real.pi / 1800000) := by
    simp only [cexA, cexStop]
    ring
  have e4 : cexStop.latitude * Real.pi / 180 = (-2 : ℝ) * (Real.pi / 1800000) := by
    simp only [cexA, cexStop]
    ring
  obtain ⟨hlo, hhi⟩ := havA_inst cexA cexStop _ _ _ _ e1 e2 e3 e4
    (by norm_num [abs_of_nonpos, abs_of_nonneg]) (by norm_num [abs_of_nonpos, abs_of_nonneg]) (by norm_num [abs_of_nonpos, abs_of_nonneg]) (by norm_num [abs_of_nonpos, abs_of_nonneg]) (by norm_num [abs_of_nonpos, abs_of_nonneg]) (by norm_num [abs_of_nonpos, abs_of_nonneg])
  have hA : (3.807716162923e-12 : ℝ) ≤ havA cexA cexStop :=
    le_trans (by norm_num [abs_of_nonpos, abs_of_nonneg]) hlo
  have hA1 : havA cexA cexStop < 1 :=
    lt_of_le_of_lt hhi (by norm_num [abs_of_nonpos, abs_of_nonneg])
  exact dist_lower_rat cexA cexStop _ _ hA hA1 (by norm_num) (by norm_num) (by norm_num)

/-- Lower bound 35.16 m on the haversine distance from `cexN6` to `cexStop`. -/
theorem dist_lo_n6_stop : (35.16 : ℝ) ≤ calculateBaseDistance cexN6 cexStop := by
  have e1 : (cexStop.latitude - cexN6.latitude) * Real.pi / 180 / 2 = (-3 : ℝ) * (Real.pi / 3600000) := by
    simp only [cexN6, cexStop]
    ring
  have e2 : (cexStop.longitude - cexN6.longitude) * Real.pi / 180 / 2 = (1 : ℝ) * (Real.pi / 3600000) := by
    simp only [cexN6, cexStop]
    ring
  have e3 : cexN6.latitude * Real.pi / 180 = (1 : ℝ) * (Real.pi / 1800000) := by
    simp only [cexN6, cexStop]
    ring
  have e4 : cexStop.latitude * Real.pi / 180 = (-2 : ℝ) * (Real.pi / 1800000) := by
    simp only [cexN6, cexStop]
    ring
  obtain ⟨hlo, hhi⟩ := havA_inst cexN6 cexStop _ _ _ _ e1 e2 e3 e4
    (by norm_num [abs_of_nonpos, abs_of_nonneg]) (by norm_num [abs_of_nonpos, abs_of_nonneg]) (by norm_num [abs_of_nonpos, abs_of_nonneg]) (by norm_num [abs_of_nonpos, abs_of_nonneg]) (by norm_num [abs_of_nonpos, abs_of_nonneg]) (by norm_num [abs_of_nonpos, abs_of_nonneg])
  have hA : (7.615432325902e-12 : ℝ) ≤ havA cexN6 cexStop :=
    le_trans (by norm_num [abs_of_nonpos, abs_of_nonneg]) hlo
  have hA1 : havA cexN6 cexStop < 1 :=
    lt_of_le_of_lt hhi (by norm_num [abs_of_nonpos, abs_of_nonneg])
  exact dist_lower_rat cexN6 cexStop _ _ hA hA1 (by norm_num) (by norm_num) (by norm_num)

/-- Lower bound 35.16 m on the haversine distance from `cexN8` to `cexStop`. -/
theorem dist_lo_n8_stop : (35.16 : ℝ) ≤ calculateBaseDistance cexN8 cexStop := by
  have e1 : (cexStop.latitude - cexN8.latitude) * Real.pi / 180 / 2 = (-3 : ℝ) * (Real.pi / 3600000) := by
    simp only [cexN8, cexStop]
    ring
  have e2 : (cexStop.longitude - cexN8.longitude) * Real.pi / 180 / 2 = (-1 : ℝ) * (Real.pi / 3600000) := by
    simp only [cexN8, cexStop]
    ring
  have e3 : cexN8.latitude * Real.pi / 180 = (1 : ℝ) * (Real.pi / 1800000) := by
    simp only [cexN8, cexStop]
    ring
  have e4 : cexStop.latitude * Real.pi / 180 = (-2 : ℝ) * (Real.pi / 1800000) := by
    simp only [cexN8, cexStop]
    ring
  obtain ⟨hlo, hhi⟩ := havA_inst cexN8 cexStop _ _ _ _ e1 e2 e3 e4
    (by norm_num [abs_of_nonpos, abs_of_nonneg]) (by norm_num [abs_of_nonpos, abs_of_nonneg]) (by norm_num [abs_of_nonpos, abs_of_nonneg]) (by norm_num [abs_of_nonpos, abs_of_nonneg]) (by norm_num [abs_of_nonpos, abs_of_nonneg]) (by norm_num [abs_of_nonpos, abs_of_nonneg])
  have hA : (7.615432325902e-12 : ℝ) ≤ havA cexN8 cexStop :=
    le_trans (by norm_num [abs_of_nonpos, abs_of_nonneg]) hlo
  have hA1 : havA cexN8 cexStop < 1 :=
    lt_of_le_of_lt hhi (by norm_num [abs_of_nonpos, abs_of_nonneg])
  exact dist_lower_rat cexN8 cexStop _ _ hA hA1 (by norm_num) (by norm_num) (by norm_num)

/-- Lower bound 14.14 m on the haversine distance from `cexObstacle.location` to `origin`. -/
theorem dist_lo_ob_origin : (14.14 : ℝ) ≤ calculateBaseDistance cexObstacle.location origin := by
  have e1 : (origin.latitude - cexObstacle.location.latitude) * Real.pi / 180 / 2 = (-1.17 : ℝ) * (Real.pi / 3600000) := by
    simp only [cexObstacle, origin]
    ring
  have e2 : (origin.longitude - cexObstacle.location.longitude) * Real.pi / 180 / 2 = (-0.5 : ℝ) * (Real.pi / 3600000) := by
    simp only [cexObstacle, origin]
    ring
  have e3 : cexObstacle.location.latitude * Real.pi / 180 = (1.17 : ℝ) * (Real.pi / 1800000) := by
    simp only [cexObstacle, origin]
    ring
  have e4 : origin.latitude * Real.pi / 180 = (0 : ℝ) * (Real.pi / 1800000) := by
    simp only [cexObstacle, origin]
    ring
  obtain ⟨hlo, hhi⟩ := havA_inst cexObstacle.location origin _ _ _ _ e1 e2 e3 e4
    (by norm_num [abs_of_nonpos, abs_of_nonneg]) (by norm_num [abs_of_nonpos, abs_of_nonneg]) (by norm_num [abs_of_nonpos, abs_of_nonneg]) (by norm_num [abs_of_nonpos, abs_of_nonneg]) (by norm_num [abs_of_nonpos, abs_of_nonneg]) (by norm_num [abs_of_nonpos, abs_of_nonneg])
  have hA : (1.232862339228e-12 : ℝ) ≤ havA cexObstacle.location origin :=
    le_trans (by norm_num [abs_of_nonpos, abs_of_nonneg]) hlo
  have hA1 : havA cexObstacle.location origin < 1 :=
    lt_of_le_of_lt hhi (by norm_num [abs_of_nonpos, abs_of_nonneg])
  exact dist_lower_rat cexObstacle.location origin _ _ hA hA1 (by norm_num) (by norm_num) (by norm_num)

/-- Lower bound 14.14 m on the haversine distance from `cexObstacle.location` to `cexA`. -/
theorem dist_lo_ob_a : (14.14 : ℝ) ≤ calculateBaseDistance cexObstacle.location cexA := by
  have e1 : (cexA.latitude - cexObstacle.location.latitude) * Real.pi / 180 / 2 = (-1.17 : ℝ) * (Real.pi / 3600000) := by
    simp only [cexObstacle, cexA]
    ring
  have e2 : (cexA.longitude - cexObstacle.location.longitude) * Real.pi / 180 / 2 = (0.5 : ℝ) * (Real.pi / 3600000) := by
    simp only [cexObstacle, cexA]
    ring
  have e3 : cexObstacle.location.latitude * Real.pi / 180 = (1.17 : ℝ) * (Real.pi / 1800000) := by
    simp only [cexObstacle, cexA]
    ring
  have e4 : cexA.latitude * Real.pi / 180 = (0 : ℝ) * (Real.pi / 1800000) := by
    simp only [cexObstacle, cexA]
    ring
  obtain ⟨hlo, hhi⟩ := havA_inst cexObstacle.location cexA _ _ _ _ e1 e2 e3 e4
    (by norm_num [abs_of_nonpos, abs_of_nonneg]) (by norm_num [abs_of_nonpos, abs_of_nonneg]) (by norm_num [abs_of_nonpos, abs_of_nonneg]) (by norm_num [abs_of_nonpos, abs_of_nonneg]) (by norm_num [abs_of_nonpos, abs_of_nonneg]) (by norm_num [abs_of_nonpos, abs_of_nonneg])
  have hA : (1.232862339228e-12 : ℝ) ≤ havA cexObstacle.location cexA :=
    le_trans (by norm_num [abs_of_nonpos, abs_of_nonneg]) hlo
  have hA1 : havA cexObstacle.location cexA < 1 :=
    lt_of_le_of_lt hhi (by norm_num [abs_of_nonpos, abs_of_nonneg])
  exact dist_lower_rat cexObstacle.location cexA _ _ hA hA1 (by norm_num) (by norm_num) (by norm_num)

/-- Lower bound 24.76 m on the haversine distance from `cexObstacle.location` to `cexC`. -/
theorem dist_lo_ob_c : (24.76 : ℝ) ≤ calculateBaseDistance cexObstacle.location cexC := by
  have e1 : (cexC.latitude - cexObstacle.location.latitude) * Real.pi / 180 / 2 = (-2.17 : ℝ) * (Real.pi / 3600000) := by
    simp only [cexObstacle, cexC]
    ring
  have e2 : (cexC.longitude - cexObstacle.location.longitude) * Real.pi / 180 / 2 = (-0.5 : ℝ) * (Real.pi / 3600000) := by
    simp only [cexObstacle, cexC]
    ring
  have e3 : cexObstacle.location.latitude * Real.pi / 180 = (1.17 : ℝ) * (Real.pi / 1800000) := by
    simp only [cexObstacle, cexC]
    ring
  have e4 : cexC.latitude * Real.pi / 180 = (-1 : ℝ) * (Real.pi / 1800000) := by
    simp only [cexObstacle, cexC]
    ring
  obtain ⟨hlo, hhi⟩ := havA_inst cexObstacle.location cexC _ _ _ _ e1 e2 e3 e4
    (by norm_num [abs_of_nonpos, abs_of_nonneg]) (by norm_num [abs_of_nonpos, abs_of_nonneg]) (by norm_num [abs_of_nonpos, abs_of_nonneg]) (by norm_num [abs_of_nonpos, abs_of_nonneg]) (by norm_num [abs_of_nonpos, abs_of_nonneg]) (by norm_num [abs_of_nonpos, abs_of_nonneg])
  have hA : (3.776416736095e-12 : ℝ) ≤ havA cexObstacle.location cexC :=
    le_trans (by norm_num [abs_of_nonpos, abs_of_nonneg]) hlo
  have hA1 : havA cexObstacle.location cexC < 1 :=
    lt_of_le_of_lt hhi (by norm_num [abs_of_nonpos, abs_of_nonneg])
  exact dist_lower_rat cexObstacle.location cexC _ _ hA hA1 (by norm_num) (by norm_num) (by norm_num)

/-- Upper bound 15.73 m on the haversine distance from `cexC` to `cexA`. -/
theorem dist_hi_c_a : calculateBaseDistance cexC cexA ≤ (15.73 : ℝ) := by
  have e1 : (cexA.latitude - cexC.latitude) * Real.pi / 180 / 2 = (1 : ℝ) * (Real.pi / 3600000) := by
    simp only [cexC, cexA]
    ring
  have e2 : (cexA.longitude - cexC.longitude) * Real.pi / 180 / 2 = (1 : ℝ) * (Real.pi / 3600000) := by
    simp only [cexC, cexA]
    ring
  have e3 : cexC.latitude * Real.pi / 180 = (-1 : ℝ) * (Real.pi / 1800000) := by
    simp only [cexC, cexA]
    ring
  have e4 : cexA.latitude * Real.pi / 180 = (0 : ℝ) * (Real.pi / 1800000) := by
    simp only [cexC, cexA]
    ring
  obtain ⟨hlo, hhi⟩ := havA_inst cexC cexA _ _ _ _ e1 e2 e3 e4
    (by norm_num [abs_of_nonpos, abs_of_nonneg]) (by norm_num [abs_of_nonpos, abs_of_nonneg]) (by norm_num [abs_of_nonpos, abs_of_nonneg]) (by norm_num [abs_of_nonpos, abs_of_nonneg]) (by norm_num [abs_of_nonpos, abs_of_nonneg]) (by norm_num [abs_of_nonpos, abs_of_nonneg])
  have hA : havA cexC cexA ≤ (1.523087434823e-12 : ℝ) :=
    le_trans hhi (by norm_num [abs_of_nonpos, abs_of_nonneg])
  have hA0 : (0 : ℝ) ≤ havA cexC cexA :=
    le_trans (by norm_num [abs_of_nonpos, abs_of_nonneg]) hlo
  exact dist_upper_rat cexC cexA _ _ hA (by norm_num) hA0 (by norm_num) (by norm_num)

/-- Upper bound 14.15 m on the haversine distance from `cexObstacle.location` to `origin`. -/
theorem dist_hi_ob_origin : calculateBaseDistance cexObstacle.location origin ≤ (14.15 : ℝ) := by
  have e1 : (origin.latitude - cexObstacle.location.latitude) * Real.pi / 180 / 2 = (-1.17 : ℝ) * (Real.pi / 3600000) := by
    simp only [cexObstacle, origin]
    ring
  have e2 : (origin.longitude - cexObstacle.location.longitude) * Real.pi / 180 / 2 = (-0.5 : ℝ) * (Real.pi / 3600000) := by
    simp only [cexObstacle, origin]
    ring
  have e3 : cexObstacle.location.latitude * Real.pi / 180 = (1.17 : ℝ) * (Real.pi / 1800000) := by
    simp only [cexObstacle, origin]
    ring
  have e4 : origin.latitude * Real.pi / 180 = (0 : ℝ) * (Real.pi / 1800000) := by
    simp only [cexObstacle, origin]
    ring
  obtain ⟨hlo, hhi⟩ := havA_inst cexObstacle.location origin _ _ _ _ e1 e2 e3 e4
    (by norm_num [abs_of_nonpos, abs_of_nonneg]) (by norm_num [abs_of_nonpos, abs_of_nonneg]) (by norm_num [abs_of_nonpos, abs_of_nonneg]) (by norm_num [abs_of_nonpos, abs_of_nonneg]) (by norm_num [abs_of_nonpos, abs_of_nonneg]) (by norm_num [abs_of_nonpos, abs_of_nonneg])
  have hA : havA cexObstacle.location origin ≤ (1.232863124117e-12 : ℝ) :=
    le_trans hhi (by norm_num [abs_of_nonpos, abs_of_nonneg])
  have hA0 : (0 : ℝ) ≤ havA cexObstacle.location origin :=
    le_trans (by norm_num [abs_of_nonpos, abs_of_nonneg]) hlo
  exact dist_upper_rat cexObstacle.location origin _ _ hA (by norm_num) hA0 (by norm_num) (by norm_num)

/-- Upper bound 14.15 m on the haversine distance from `cexObstacle.location` to `cexA`. -/
theorem dist_hi_ob_a : calculateBaseDistance cexObstacle.location cexA ≤ (14.15 : ℝ) := by
  have e1 : (cexA.latitude - cexObstacle.location.latitude) * Real.pi / 180 / 2 = (-1.17 : ℝ) * (Real.pi / 3600000) := by
    simp only [cexObstacle, cexA]
    ring
  have e2 : (cexA.longitude - cexObstacle.location.longitude) * Real.pi / 180 / 2 = (0.5 : ℝ) * (Real.pi / 3600000) := by
    simp only [cexObstacle, cexA]
    ring
  have e3 : cexObstacle.location.latitude * Real.pi / 180 = (1.17 : ℝ) * (Real.pi / 1800000) := by
    simp only [cexObstacle, cexA]
    ring
  have e4 : cexA.latitude * Real.pi / 180 = (0 : ℝ) * (Real.pi / 1800000) := by
    simp only [cexObstacle, cexA]
    ring
  obtain ⟨hlo, hhi⟩ := havA_inst cexObstacle.location cexA _ _ _ _ e1 e2 e3 e4
    (by norm_num [abs_of_nonpos, abs_of_nonneg]) (by norm_num [abs_of_nonpos, abs_of_nonneg]) (by norm_num [abs_of_nonpos, abs_of_nonneg]) (by norm_num [abs_of_nonpos, abs_of_nonneg]) (by norm_num [abs_of_nonpos, abs_of_nonneg]) (by norm_num [abs_of_nonpos, abs_of_nonneg])
  have hA : havA cexObstacle.location cexA ≤ (1.232863124117e-12 : ℝ) :=
    le_trans hhi (by norm_num [abs_of_nonpos, abs_of_nonneg])
  have hA0 : (0 : ℝ) ≤ havA cexObstacle.location cexA :=
    le_trans (by norm_num [abs_of_nonpos, abs_of_nonneg]) hlo
  exact dist_upper_rat cexObstacle.location cexA _ _ hA (by norm_num) hA0 (by norm_num) (by norm_num)


/-! ## Scenario lemmas for the open-set duplicate counterexample -/

theorem accessLoop_true (p : AccessibilityPreferences)
    (h : p.requiresWheelchairAccess = false) :
    ∀ l : List AccessibilityObstacle, accessLoop p l = true := by
  intro l
  induction l with
  | nil => rfl
  | cons o rest ih =>
    simp only [accessLoop, h, Bool.false_and, Bool.false_eq_true, if_false]
    exact ih

theorem isLocationAccessible_true (obstacles : List AccessibilityObstacle)
    (location : Location) (p : AccessibilityPreferences)
    (h : p.requiresWheelchairAccess = false) :
    isLocationAccessible obstacles location p = true := by
  unfold isLocationAccessible
  exact accessLoop_true p h _

theorem getAccessibleNeighbors_no_wheelchair (obstacles : List AccessibilityObstacle)
    (current : Location) (p : AccessibilityPreferences)
    (h : p.requiresWheelchairAccess = false) :
    getAccessibleNeighbors obstacles current p =
      gridOffsets.map (fun ij =>
        Location.mk (current.latitude + ij.1 * 0.0001) (current.longitude + ij.2 * 0.0001)) := by
  simp only [getAccessibleNeighbors]
  apply List.filter_eq_self.mpr
  intro a _
  exact isLocationAccessible_true obstacles a p h

theorem obstacleLoop_some_ge (p : AccessibilityPreferences)
    (h : p.requiresWheelchairAccess = false) :
    ∀ (l : List AccessibilityObstacle) (w : ℝ), 0 ≤ w →
      ∃ w', obstacleLoop p l w = some w' ∧ w ≤ w' := by
  intro l
  induction l with
  | nil => intro w hw; exact ⟨w, rfl, le_refl w⟩
  | cons o rest ih =>
    intro w hw
    simp only [obstacleLoop]
    rw [if_neg (by simp [h])]
    by_cases hc : (p.preferWellLit && (o.type == ObstacleType.poor_lighting)) = true
    · rw [if_pos hc]
      obtain ⟨w', hw', hle⟩ := ih (w * 1.5) (by nlinarith)
      exact ⟨w', hw', by nlinarith⟩
    · rw [if_neg hc]
      exact ih w hw

theorem calculatePathWeight_finite_ge (obstacles : List AccessibilityObstacle)
    (s t : Location) (p : AccessibilityPreferences)
    (h : p.requiresWheelchairAccess = false) :
    ∃ w' : ℝ, calculatePathWeight [] obstacles s t p = ↑w' ∧ calculateBaseDistance s t ≤ w' := by
  obtain ⟨w', hw', hle⟩ := obstacleLoop_some_ge p h (findObstaclesOnPath obstacles s t)
    (calculateBaseDistance s t) (calculateBaseDistance_nonneg s t)
  refine ⟨w', ?_, hle⟩
  unfold calculatePathWeight
  rw [hw']
  rfl

theorem um_bounds : (11.119 : ℝ) ≤ 6371e3 * (0.0001 * Real.pi / 180) ∧
    6371e3 * (0.0001 * Real.pi / 180) ≤ 11.12 := by
  have h1 := Real.pi_gt_3141592
  have h2 := Real.pi_lt_3141593
  constructor <;> nlinarith

theorem dist_origin_c : calculateBaseDistance origin cexC =
    6371e3 * (0.0001 * Real.pi / 180) := by
  rw [calculateBaseDistance_symm]
  show calculateBaseDistance (⟨-0.0001, 0⟩ : Location) (⟨0, 0⟩ : Location) = _
  rw [dist_meridian (-0.0001) 0 0 (by norm_num) (by nlinarith [Real.pi_pos])]
  ring

theorem dist_c_stop : calculateBaseDistance cexC cexStop =
    6371e3 * (0.0001 * Real.pi / 180) := by
  rw [calculateBaseDistance_symm]
  show calculateBaseDistance (⟨-0.0002, 0⟩ : Location) (⟨-0.0001, 0⟩ : Location) = _
  rw [dist_meridian (-0.0002) (-0.0001) 0 (by norm_num) (by nlinarith [Real.pi_pos])]
  ring

theorem dist_origin_stop : calculateBaseDistance origin cexStop =
    6371e3 * (0.0002 * Real.pi / 180) := by
  rw [calculateBaseDistance_symm]
  show calculateBaseDistance (⟨-0.0002, 0⟩ : Location) (⟨0, 0⟩ : Location) = _
  rw [dist_meridian (-0.0002) 0 0 (by norm_num) (by nlinarith [Real.pi_pos])]
  ring

theorem dist_origin_a : calculateBaseDistance origin cexA =
    6371e3 * (0.0001 * Real.pi / 180) := by
  show calculateBaseDistance (⟨0, 0⟩ : Location) (⟨0, 0.0001⟩ : Location) = _
  rw [dist_equator 0 0.0001 (by norm_num) (by nlinarith [Real.pi_pos])]
  ring

theorem dist_origin_n4 : calculateBaseDistance origin cexN4 =
    6371e3 * (0.0001 * Real.pi / 180) := by
  rw [calculateBaseDistance_symm]
  show calculateBaseDistance (⟨0, -0.0001⟩ : Location) (⟨0, 0⟩ : Location) = _
  rw [dist_equator (-0.0001) 0 (by norm_num) (by nlinarith [Real.pi_pos])]
  ring

theorem dist_origin_n7 : calculateBaseDistance origin cexN7 =
    6371e3 * (0.0001 * Real.pi / 180) := by
  show calculateBaseDistance (⟨0, 0⟩ : Location) (⟨0.0001, 0⟩ : Location) = _
  rw [dist_meridian 0 0.0001 0 (by norm_num) (by nlinarith [Real.pi_pos])]
  ring

theorem dist_n7_stop : calculateBaseDistance cexN7 cexStop =
    6371e3 * (0.0003 * Real.pi / 180) := by
  rw [calculateBaseDistance_symm]
  show calculateBaseDistance (⟨-0.0002, 0⟩ : Location) (⟨0.0001, 0⟩ : Location) = _
  rw [dist_meridian (-0.0002) 0.0001 0 (by norm_num) (by nlinarith [Real.pi_pos])]
  ring

theorem near_ob_s_a : isPointNearLine cexObstacle.location origin cexA 20 = true := by
  simp only [isPointNearLine, decide_eq_true_eq]
  linarith [dist_hi_ob_origin, dist_hi_ob_a, dist_origin_a, um_bounds.1]

theorem far_ob_s_c : isPointNearLine cexObstacle.location origin cexC 20 = false := by
  simp only [isPointNearLine, decide_eq_false_iff_not, not_lt]
  linarith [dist_lo_ob_origin, dist_lo_ob_c, dist_origin_c, um_bounds.2]

theorem far_ob_c_a : isPointNearLine cexObstacle.location cexC cexA 20 = false := by
  simp only [isPointNearLine, decide_eq_false_iff_not, not_lt]
  linarith [dist_lo_ob_c, dist_lo_ob_a, dist_hi_c_a]


theorem weight_s_c : calculatePathWeight [] cexObstacles origin cexC cexPrefs =
    ↑(calculateBaseDistance origin cexC) := by
  have hfil : findObstaclesOnPath cexObstacles origin cexC = [] := by
    simp [findObstaclesOnPath, cexObstacles, far_ob_s_c]
  unfold calculatePathWeight
  rw [hfil]
  rfl

theorem weight_s_a : calculatePathWeight [] cexObstacles origin cexA cexPrefs =
    ↑(calculateBaseDistance origin cexA * 1.5 * 1.5 * 1.5) := by
  have hfil : findObstaclesOnPath cexObstacles origin cexA = cexObstacles := by
    simp [findObstaclesOnPath, cexObstacles, near_ob_s_a]
  have hloop : obstacleLoop cexPrefs cexObstacles (calculateBaseDistance origin cexA) =
      some (calculateBaseDistance origin cexA * 1.5 * 1.5 * 1.5) := by
    simp [cexObstacles, obstacleLoop, cexPrefs, cexObstacle]
  unfold calculatePathWeight
  rw [hfil, hloop]
  rfl

theorem weight_c_a : calculatePathWeight [] cexObstacles cexC cexA cexPrefs =
    ↑(calculateBaseDistance cexC cexA) := by
  have hfil : findObstaclesOnPath cexObstacles cexC cexA = [] := by
    simp [findObstaclesOnPath, cexObstacles, far_ob_c_a]
  unfold calculatePathWeight
  rw [hfil]
  rfl

theorem neighbors_origin : getAccessibleNeighbors cexObstacles origin cexPrefs =
    [cexN1, cexC, cexN3, cexN4, cexA, cexN6, cexN7, cexN8] := by
  rw [getAccessibleNeighbors_no_wheelchair cexObstacles origin cexPrefs rfl]
  simp only [gridOffsets, List.map, origin]
  norm_num [cexN1, cexC, cexN3, cexN4, cexA, cexN6, cexN7, cexN8, Location.mk.injEq]

theorem neighbors_c : getAccessibleNeighbors cexObstacles cexC cexPrefs =
    [cexM1, cexStop, cexM3, cexN1, cexN3, cexN4, origin, cexA] := by
  rw [getAccessibleNeighbors_no_wheelchair cexObstacles cexC cexPrefs rfl]
  simp only [gridOffsets, List.map, cexC]
  norm_num [cexM1, cexStop, cexM3, cexN1, cexN3, cexN4, origin, cexA, Location.mk.injEq]


theorem processNeighbor_openSet_cases (features : List AccessibilityFeature)
    (obstacles : List AccessibilityObstacle) (p : AccessibilityPreferences)
    (stop current : Location) (st : SearchState) (n : Location) :
    (processNeighbor features obstacles p stop current st n).openSet = st.openSet ∨
    (processNeighbor features obstacles p stop current st n).openSet = st.openSet ++ [n] := by
  unfold processNeighbor
  dsimp only
  split
  · exact Or.inr rfl
  · exact Or.inl rfl

theorem processNeighbor_untouched (features : List AccessibilityFeature)
    (obstacles : List AccessibilityObstacle) (p : AccessibilityPreferences)
    (stop current : Location) (st : SearchState) (n x : Location) (hx : x ≠ n) :
    (processNeighbor features obstacles p stop current st n).gScore x = st.gScore x ∧
    (processNeighbor features obstacles p stop current st n).fScore x = st.fScore x ∧
    (processNeighbor features obstacles p stop current st n).cameFrom x = st.cameFrom x := by
  unfold processNeighbor
  dsimp only
  split
  · exact ⟨if_neg hx, if_neg hx, if_neg hx⟩
  · exact ⟨rfl, rfl, rfl⟩

theorem fold_untouched (features : List AccessibilityFeature)
    (obstacles : List AccessibilityObstacle) (p : AccessibilityPreferences)
    (stop current : Location) :
    ∀ (nbrs : List Location) (st : SearchState) (x : Location), x ∉ nbrs →
      (nbrs.foldl (processNeighbor features obstacles p stop current) st).gScore x =
          st.gScore x ∧
      (nbrs.foldl (processNeighbor features obstacles p stop current) st).fScore x =
          st.fScore x ∧
      (nbrs.foldl (processNeighbor features obstacles p stop current) st).cameFrom x =
          st.cameFrom x := by
  intro nbrs
  induction nbrs with
  | nil => intro st x _; exact ⟨rfl, rfl, rfl⟩
  | cons n rest ih =>
    intro st x hx
    rw [List.foldl_cons]
    have hxn : x ≠ n := fun h => hx (by rw [h]; exact List.mem_cons_self n rest)
    have hxr : x ∉ rest := fun h => hx (List.mem_cons_of_mem n h)
    obtain ⟨h1, h2, h3⟩ := ih (processNeighbor features obstacles p stop current st n) x hxr
    obtain ⟨g1, g2, g3⟩ := processNeighbor_untouched features obstacles p stop current st n x hxn
    exact ⟨h1.trans g1, h2.trans g2, h3.trans g3⟩

theorem fold_prefix (features : List AccessibilityFeature)
    (obstacles : List AccessibilityObstacle) (p : AccessibilityPreferences)
    (stop current : Location) :
    ∀ (nbrs : List Location) (st : SearchState),
      ∃ tail, (nbrs.foldl (processNeighbor features obstacles p stop current) st).openSet =
        st.openSet ++ tail := by
  intro nbrs
  induction nbrs with
  | nil => intro st; exact ⟨[], (List.append_nil _).symm⟩
  | cons n rest ih =>
    intro st
    rw [List.foldl_cons]
    obtain ⟨tail, htail⟩ := ih (processNeighbor features obstacles p stop current st n)
    rcases processNeighbor_openSet_cases features obstacles p stop current st n with h | h
    · exact ⟨tail, by rw [htail, h]⟩
    · exact ⟨[n] ++ tail, by rw [htail, h, List.append_assoc]⟩

theorem processNeighbor_fresh (features : List AccessibilityFeature)
    (obstacles : List AccessibilityObstacle) (p : AccessibilityPreferences)
    (stop current : Location) (st : SearchState) (n : Location)
    (htop : st.gScore n = ⊤)
    (hfin : st.gScore current + calculatePathWeight features obstacles current n p ≠ ⊤) :
    (processNeighbor features obstacles p stop current st n).openSet = st.openSet ++ [n] ∧
    (processNeighbor features obstacles p stop current st n).gScore n =
        st.gScore current + calculatePathWeight features obstacles current n p ∧
    (processNeighbor features obstacles p stop current st n).fScore n =
        st.gScore current + calculatePathWeight features obstacles current n p +
          ↑(estimateDistance n stop) := by
  have hcond : st.gScore current + calculatePathWeight features obstacles current n p <
      st.gScore n := by
    rw [htop]
    exact lt_top_iff_ne_top.mpr hfin
  unfold processNeighbor
  dsimp only
  rw [if_pos hcond]
  exact ⟨rfl, if_pos rfl, if_pos rfl⟩

theorem fold_fresh (features : List AccessibilityFeature)
    (obstacles : List AccessibilityObstacle) (p : AccessibilityPreferences)
    (stop current : Location) :
    ∀ (nbrs : List Location) (st : SearchState),
      (∀ n ∈ nbrs, st.gScore n = ⊤) →
      (∀ n ∈ nbrs,
        st.gScore current + calculatePathWeight features obstacles current n p ≠ ⊤) →
      current ∉ nbrs → nbrs.Nodup →
      (nbrs.foldl (processNeighbor features obstacles p stop current) st).openSet =
          st.openSet ++ nbrs ∧
      ∀ n ∈ nbrs,
        (nbrs.foldl (processNeighbor features obstacles p stop current) st).gScore n =
            st.gScore current + calculatePathWeight features obstacles current n p ∧
        (nbrs.foldl (processNeighbor features obstacles p stop current) st).fScore n =
            st.gScore current + calculatePathWeight features obstacles current n p +
              ↑(estimateDistance n stop) := by
  intro nbrs
  induction nbrs with
  | nil =>
    intro st _ _ _ _
    exact ⟨(List.append_nil _).symm, fun n hn => absurd hn (List.not_mem_nil n)⟩
  | cons n rest ih =>
    intro st hg hw hcur hnodup
    have hcn : current ≠ n := fun h => hcur (by rw [h]; exact List.mem_cons_self n rest)
    have hcr : current ∉ rest := fun h => hcur (List.mem_cons_of_mem n h)
    have hnr : n ∉ rest := (List.nodup_cons.mp hnodup).1
    have hrest : rest.Nodup := (List.nodup_cons.mp hnodup).2
    obtain ⟨h1open, h1gn, h1fn⟩ := processNeighbor_fresh features obstacles p stop current st n
      (hg n (List.mem_cons_self n rest)) (hw n (List.mem_cons_self n rest))
    have h1cur := processNeighbor_untouched features obstacles p stop current st n current hcn
    rw [List.foldl_cons]
    have hg1 : ∀ m ∈ rest,
        (processNeighbor features obstacles p stop current st n).gScore m = ⊤ := by
      intro m hm
      have hmn : m ≠ n := fun h => hnr (h ▸ hm)
      rw [(processNeighbor_untouched features obstacles p stop current st n m hmn).1]
      exact hg m (List.mem_cons_of_mem n hm)
    have hw1 : ∀ m ∈ rest,
        (processNeighbor features obstacles p stop current st n).gScore current +
          calculatePathWeight features obstacles current m p ≠ ⊤ := by
      intro m hm
      rw [h1cur.1]
      exact hw m (List.mem_cons_of_mem n hm)
    obtain ⟨ihopen, ihmem⟩ :=
      ih (processNeighbor features obstacles p stop current st n) hg1 hw1 hcr hrest
    constructor
    · rw [ihopen, h1open, List.append_assoc]
      rfl
    · intro m hm
      rcases List.mem_cons.mp hm with hmn | hmr
      · subst hmn
        obtain ⟨u1, u2, _⟩ :=
          fold_untouched features obstacles p stop current rest
            (processNeighbor features obstacles p stop current st m) m hnr
        exact ⟨u1.trans h1gn, u2.trans h1fn⟩
      · obtain ⟨v1, v2⟩ := ihmem m hmr
        rw [v1, v2, h1cur.1]
        exact ⟨rfl, rfl⟩


theorem state1_spec :
    cexState1.openSet = [cexN1, cexC, cexN3, cexN4, cexA, cexN6, cexN7, cexN8] ∧
    ∀ n ∈ [cexN1, cexC, cexN3, cexN4, cexA, cexN6, cexN7, cexN8],
      cexState1.gScore n = calculatePathWeight [] cexObstacles origin n cexPrefs ∧
      cexState1.fScore n = calculatePathWeight [] cexObstacles origin n cexPrefs +
        ↑(estimateDistance n cexStop) := by
  have hg : ∀ n ∈ [cexN1, cexC, cexN3, cexN4, cexA, cexN6, cexN7, cexN8],
      ({ cexState0 with openSet := cexState0.openSet.erase origin } :
        SearchState).gScore n = ⊤ := by
    intro n hn
    fin_cases hn <;>
      norm_num [cexState0, origin, cexN1, cexC, cexN3, cexN4, cexA, cexN6, cexN7, cexN8,
        Location.mk.injEq]
  have hg0 : ({ cexState0 with openSet := cexState0.openSet.erase origin } :
      SearchState).gScore origin = 0 := by
    simp [cexState0]
  have hw : ∀ n ∈ [cexN1, cexC, cexN3, cexN4, cexA, cexN6, cexN7, cexN8],
      ({ cexState0 with openSet := cexState0.openSet.erase origin } :
          SearchState).gScore origin +
        calculatePathWeight [] cexObstacles origin n cexPrefs ≠ ⊤ := by
    intro n hn
    obtain ⟨w', hwn, -⟩ := calculatePathWeight_finite_ge cexObstacles origin n cexPrefs rfl
    rw [hg0, hwn]
    simp [WithTop.add_eq_top]
  have hcur : origin ∉ [cexN1, cexC, cexN3, cexN4, cexA, cexN6, cexN7, cexN8] := by
    norm_num [origin, cexN1, cexC, cexN3, cexN4, cexA, cexN6, cexN7, cexN8, Location.mk.injEq]
  have hnodup : [cexN1, cexC, cexN3, cexN4, cexA, cexN6, cexN7, cexN8].Nodup := by
    norm_num [List.nodup_cons, cexN1, cexC, cexN3, cexN4, cexA, cexN6, cexN7, cexN8,
      Location.mk.injEq]
  have hexp : cexState1 = List.foldl
      (processNeighbor [] cexObstacles cexPrefs cexStop origin)
      { cexState0 with openSet := cexState0.openSet.erase origin }
      [cexN1, cexC, cexN3, cexN4, cexA, cexN6, cexN7, cexN8] := by
    unfold cexState1 expandNode
    rw [neighbors_origin]
  obtain ⟨hopen, hmem⟩ := fold_fresh [] cexObstacles cexPrefs cexStop origin
    [cexN1, cexC, cexN3, cexN4, cexA, cexN6, cexN7, cexN8]
    { cexState0 with openSet := cexState0.openSet.erase origin } hg hw hcur hnodup
  have hops : ({ cexState0 with openSet := cexState0.openSet.erase origin } :
      SearchState).openSet = [] := by
    simp [cexState0]
  constructor
  · rw [hexp, hopen, hops]
    rfl
  · intro n hn
    obtain ⟨h1, h2⟩ := hmem n hn
    rw [hexp, h1, h2, hg0, zero_add]
    exact ⟨rfl, rfl⟩

theorem state1_g_c : cexState1.gScore cexC = ↑(calculateBaseDistance origin cexC) := by
  have h := (state1_spec.2 cexC (by simp)).1
  rw [h, weight_s_c]

theorem state1_g_a : cexState1.gScore cexA =
    ↑(calculateBaseDistance origin cexA * 1.5 * 1.5 * 1.5) := by
  have h := (state1_spec.2 cexA (by simp)).1
  rw [h, weight_s_a]

theorem state1_f_c : cexState1.fScore cexC =
    ↑(calculateBaseDistance origin cexC + calculateBaseDistance cexC cexStop) := by
  have h := (state1_spec.2 cexC (by simp)).2
  rw [h, weight_s_c, ← WithTop.coe_add]
  rfl

theorem state1_f_form (n : Location)
    (hn : n ∈ [cexN1, cexC, cexN3, cexN4, cexA, cexN6, cexN7, cexN8]) :
    ∃ v : ℝ, cexState1.fScore n = ↑v ∧
      calculateBaseDistance origin n + calculateBaseDistance n cexStop ≤ v := by
  obtain ⟨-, hfn⟩ := state1_spec.2 n hn
  obtain ⟨w', hwn, hge⟩ := calculatePathWeight_finite_ge cexObstacles origin n cexPrefs rfl
  refine ⟨w' + calculateBaseDistance n cexStop, ?_, by linarith⟩
  rw [hfn, hwn, ← WithTop.coe_add]
  rfl

theorem fold_stay (f : Location → WithTop ℝ) :
    ∀ (rest : List Location) (acc : WithTop ℝ × Option Location),
      (∀ x ∈ rest, ¬ f x < acc.1) →
      rest.foldl (fun acc node => if f node < acc.1 then (f node, some node) else acc) acc =
        acc := by
  intro rest
  induction rest with
  | nil => intro acc _; rfl
  | cons x xs ih =>
    intro acc h
    simp only [List.foldl_cons]
    rw [if_neg (h x (List.mem_cons_self x xs))]
    exact ih acc (fun y hy => h y (List.mem_cons_of_mem x hy))

theorem getLowestFScore_second (a b : Location) (rest : List Location)
    (f : Location → WithTop ℝ) (ha : f a < ⊤) (hab : f b < f a)
    (hrest : ∀ x ∈ rest, ¬ f x < f b) :
    getLowestFScore (a :: b :: rest) f = some b := by
  unfold getLowestFScore
  simp only [List.foldl_cons]
  dsimp only
  rw [if_pos ha]
  dsimp only
  rw [if_pos hab]
  rw [fold_stay f rest (f b, some b) hrest]

theorem lowest1 : getLowestFScore cexState0.openSet cexState0.fScore = some origin := by
  have hop : cexState0.openSet = [origin] := rfl
  have hf : cexState0.fScore origin = ↑(estimateDistance origin cexStop) := by
    simp [cexState0]
  rw [hop]
  unfold getLowestFScore
  rw [List.foldl_cons]
  dsimp only
  rw [if_pos (by rw [hf]; exact WithTop.coe_lt_top _)]
  rfl

theorem lowest2 : getLowestFScore cexState1.openSet cexState1.fScore = some cexC := by
  rw [state1_spec.1]
  apply getLowestFScore_second
  · obtain ⟨v, hv, -⟩ := state1_f_form cexN1 (by simp)
    rw [hv]
    exact WithTop.coe_lt_top v
  · obtain ⟨v, hv, hge⟩ := state1_f_form cexN1 (by simp)
    rw [hv, state1_f_c]
    apply WithTop.coe_lt_coe.mpr
    linarith [dist_lo_origin_n1, dist_lo_n1_stop, dist_origin_c, dist_c_stop, um_bounds.2]
  · intro x hx
    fin_cases hx
    · obtain ⟨v, hv, hge⟩ := state1_f_form cexN3 (by simp)
      rw [hv, state1_f_c, not_lt]
      apply WithTop.coe_le_coe.mpr
      linarith [dist_lo_origin_n3, dist_lo_n3_stop, dist_origin_c, dist_c_stop, um_bounds.2]
    · obtain ⟨v, hv, hge⟩ := state1_f_form cexN4 (by simp)
      rw [hv, state1_f_c, not_lt]
      apply WithTop.coe_le_coe.mpr
      linarith [dist_origin_n4, dist_lo_n4_stop, dist_origin_c, dist_c_stop, um_bounds.2]
    · obtain ⟨v, hv, hge⟩ := state1_f_form cexA (by simp)
      rw [hv, state1_f_c, not_lt]
      apply WithTop.coe_le_coe.mpr
      linarith [dist_origin_a, dist_lo_a_stop, dist_origin_c, dist_c_stop, um_bounds.2]
    · obtain ⟨v, hv, hge⟩ := state1_f_form cexN6 (by simp)
      rw [hv, state1_f_c, not_lt]
      apply WithTop.coe_le_coe.mpr
      linarith [dist_lo_origin_n6, dist_lo_n6_stop, dist_origin_c, dist_c_stop, um_bounds.2]
    · obtain ⟨v, hv, hge⟩ := state1_f_form cexN7 (by simp)
      rw [hv, state1_f_c, not_lt]
      apply WithTop.coe_le_coe.mpr
      linarith [dist_origin_n7, dist_n7_stop, dist_origin_c, dist_c_stop, um_bounds.1]
    · obtain ⟨v, hv, hge⟩ := state1_f_form cexN8 (by simp)
      rw [hv, state1_f_c, not_lt]
      apply WithTop.coe_le_coe.mpr
      linarith [dist_lo_origin_n8, dist_lo_n8_stop, dist_origin_c, dist_c_stop, um_bounds.2]

theorem not_dest_origin : isAtDestination origin cexStop = false := by
  simp only [isAtDestination, decide_eq_false_iff_not, not_lt]
  rw [dist_origin_stop]
  have := Real.pi_gt_3141592
  linarith

theorem not_dest_c : isAtDestination cexC cexStop = false := by
  simp only [isAtDestination, decide_eq_false_iff_not, not_lt]
  rw [dist_c_stop]
  have := Real.pi_gt_3141592
  linarith

theorem erase1 : cexState1.openSet.erase cexC =
    [cexN1, cexN3, cexN4, cexA, cexN6, cexN7, cexN8] := by
  rw [state1_spec.1]
  norm_num [List.erase_cons, beq_iff_eq, cexN1, cexC, cexN3, cexN4, cexA, cexN6, cexN7,
    cexN8, Location.mk.injEq]


theorem processNeighbor_improved (features : List AccessibilityFeature)
    (obstacles : List AccessibilityObstacle) (p : AccessibilityPreferences)
    (stop current : Location) (st : SearchState) (n : Location)
    (h : st.gScore current + calculatePathWeight features obstacles current n p <
      st.gScore n) :
    (processNeighbor features obstacles p stop current st n).openSet =
      st.openSet ++ [n] := by
  unfold processNeighbor
  dsimp only
  rw [if_pos h]

theorem st7_g_a : cexSt7.gScore cexA =
    ↑(calculateBaseDistance origin cexA * 1.5 * 1.5 * 1.5) := by
  have h := (fold_untouched [] cexObstacles cexPrefs cexStop cexC
    [cexM1, cexStop, cexM3, cexN1, cexN3, cexN4, origin] cexSt1e cexA (by
      norm_num [cexA, cexM1, cexStop, cexM3, cexN1, cexN3, cexN4, origin,
        Location.mk.injEq])).1
  exact h.trans state1_g_a

theorem st7_g_c : cexSt7.gScore cexC = ↑(calculateBaseDistance origin cexC) := by
  have h := (fold_untouched [] cexObstacles cexPrefs cexStop cexC
    [cexM1, cexStop, cexM3, cexN1, cexN3, cexN4, origin] cexSt1e cexC (by
      norm_num [cexC, cexM1, cexStop, cexM3, cexN1, cexN3, cexN4, origin,
        Location.mk.injEq])).1
  exact h.trans state1_g_c

theorem st7_improve :
    cexSt7.gScore cexC + calculatePathWeight [] cexObstacles cexC cexA cexPrefs <
      cexSt7.gScore cexA := by
  rw [st7_g_a, st7_g_c, weight_c_a, ← WithTop.coe_add]
  apply WithTop.coe_lt_coe.mpr
  linarith [dist_origin_c, dist_hi_c_a, dist_origin_a, um_bounds.1]

theorem state2_openSet : ∃ t1, cexState2.openSet =
    ([cexN1, cexN3, cexN4, cexA, cexN6, cexN7, cexN8] ++ t1) ++ [cexA] := by
  have hexp : cexState2 = processNeighbor [] cexObstacles cexPrefs cexStop cexC cexSt7 cexA := by
    unfold cexState2 expandNode cexSt7 cexSt1e
    rw [neighbors_c]
    rfl
  obtain ⟨t1, ht1⟩ := fold_prefix [] cexObstacles cexPrefs cexStop cexC
    [cexM1, cexStop, cexM3, cexN1, cexN3, cexN4, origin] cexSt1e
  refine ⟨t1, ?_⟩
  rw [hexp,
    processNeighbor_improved [] cexObstacles cexPrefs cexStop cexC cexSt7 cexA st7_improve]
  have h7 : cexSt7.openSet = [cexN1, cexN3, cexN4, cexA, cexN6, cexN7, cexN8] ++ t1 := by
    rw [show cexSt1e.openSet = [cexN1, cexN3, cexN4, cexA, cexN6, cexN7, cexN8]
      from erase1] at ht1
    exact ht1
  rw [h7]

theorem searchLoop_step (features : List AccessibilityFeature)
    (obstacles : List AccessibilityObstacle) (p : AccessibilityPreferences)
    (stop : Location) (fuel steps : ℕ) (st : SearchState) (current : Location)
    (hne : st.openSet.isEmpty = false)
    (hlow : getLowestFScore st.openSet st.fScore = some current)
    (hdest : isAtDestination current stop = false) :
    searchLoop features obstacles p stop (fuel + 1) steps st =
      searchLoop features obstacles p stop fuel (steps + 1)
        (expandNode features obstacles p stop current
          { st with openSet := st.openSet.erase current }) := by
  simp only [searchLoop]
  rw [if_neg (by rw [hne]; exact Bool.false_ne_true)]
  rw [hlow]
  dsimp only
  rw [if_neg (by rw [hdest]; exact Bool.false_ne_true)]

/-- Claim C7 COUNTEREXAMPLE: a complete concrete run refuting open-set
dedup/idempotence.  Starting the search at `origin` towards `cexStop` (three
`poor_lighting` obstacles inflating the direct east edge, preferences
preferring well-lit paths), the first two loop iterations reach `cexState2`,
whose open set contains the east neighbour `cexA` TWICE: it survives from the
first expansion and is appended again by the second when its `gScore`
improves via `cexC`, because `Set.add` on a freshly allocated neighbour
object never deduplicates by coordinates. -/
theorem open_set_duplicate :
    findAccessibleRoute [] cexObstacles 100 origin cexStop cexPrefs =
      searchLoop [] cexObstacles cexPrefs cexStop 98 2 cexState2 ∧
    ¬ cexState2.openSet.Nodup := by
  constructor
  · have h0 : findAccessibleRoute [] cexObstacles 100 origin cexStop cexPrefs =
        searchLoop [] cexObstacles cexPrefs cexStop 100 0 cexState0 := rfl
    have hne0 : cexState0.openSet.isEmpty = false := rfl
    have hne1 : cexState1.openSet.isEmpty = false := by
      rw [state1_spec.1]
      rfl
    have h1 : searchLoop [] cexObstacles cexPrefs cexStop 100 0 cexState0 =
        searchLoop [] cexObstacles cexPrefs cexStop 99 1 cexState1 := by
      rw [show (100 : ℕ) = 99 + 1 from rfl]
      exact searchLoop_step [] cexObstacles cexPrefs cexStop 99 0 cexState0 origin hne0
        lowest1 not_dest_origin
    have h2 : searchLoop [] cexObstacles cexPrefs cexStop 99 1 cexState1 =
        searchLoop [] cexObstacles cexPrefs cexStop 98 2 cexState2 := by
      rw [show (99 : ℕ) = 98 + 1 from rfl]
      exact searchLoop_step [] cexObstacles cexPrefs cexStop 98 1 cexState1 cexC hne1
        lowest2 not_dest_c
    rw [h0, h1, h2]
  · intro hnodup
    obtain ⟨t1, ht⟩ := state2_openSet
    rw [ht] at hnodup
    have hdisj := List.disjoint_of_nodup_append hnodup
    exact hdisj (a := cexA) (by simp) (by simp)

/-- Claim C7 (amended): the open set of `findAccessibleRoute` is a JS `Set` of
freshly allocated neighbour objects, so `add` NEVER deduplicates by
coordinates.  What actually holds: on a strict `gScore` improvement the
neighbour is appended to the open set unconditionally (even if an entry with
identical coordinates is already present), and otherwise the open set is
unchanged. -/
theorem open_set_add_appends (features : List AccessibilityFeature)
    (obstacles : List AccessibilityObstacle) (p : AccessibilityPreferences)
    (stop current : Location) (st : SearchState) (neighbor : Location) :
    (processNeighbor features obstacles p stop current st neighbor).openSet =
      if st.gScore current + calculatePathWeight features obstacles current neighbor p <
          st.gScore neighbor then st.openSet ++ [neighbor]
      else st.openSet := by
  unfold processNeighbor
  dsimp only
  split_ifs with h
  · rfl
  · rfl

end Navigator
